import Mathlib

/-!
# node-rplidar: the scan decoder and the serial-port parser

A shallow embedding of `src/rplidar.js`: the bit-level decoder `parseScan`, the
response recognisers and the stateful closure returned by `RPLidar.parser()`,
followed by the properties proved about them.

Conventions of the embedding.
* A Node `Buffer` is a list of bytes, a byte is a `Fin 256`.
* A JavaScript string is a `List Char`.
* The numbers `parseScan` returns are IEEE doubles obtained by dividing an
  integer below `2 ^ 16` by `64.0` or `4.0`; such quotients are exact, so they
  are embedded as rationals.
* A thrown exception is the `error` side of `Except`.
-/

namespace RPLidar

/-! ## Buffers and strings -/

/-- One element of a Node `Buffer`. -/
abbrev Byte := Fin 256

/-- A Node `Buffer`. -/
abbrev Buffer := List Byte

/-- The expression `buffer[i] >>> 0`: the byte at index `i` as an unsigned
number, and `0` when the index is out of range (`undefined >>> 0` is `0`). -/
def byteAt (buffer : Buffer) (i : Nat) : Nat :=
  match buffer.get? i with
  | some b => b.val
  | none => 0

/-- The method `Buffer.prototype.slice(start, end)` for `0 ≤ start`: the bytes
at indices `start ≤ i < end`, clamped to the length of the buffer. -/
def slice (buffer : Buffer) (start stop : Nat) : Buffer :=
  (buffer.take stop).drop start

/-- The method `String.prototype.substring(start, end)` for `start ≤ end`. -/
def substring (s : List Char) (start stop : Nat) : List Char :=
  (s.take stop).drop start

/-- The lodash function `_.padStart(string, length, chars)` for a one-character
padding. -/
def padStart (s : List Char) (length : Nat) (c : Char) : List Char :=
  List.replicate (length - s.length) c ++ s

/-- The source function `hexToBinaryString`:
`_.padStart((hex >>> 0).toString(2), 8, '0')`, applied to a number that `>>> 0`
has already made unsigned. -/
def hexToBinaryString (hex : Nat) : List Char :=
  padStart (Nat.toDigits 2 hex) 8 '0'

/-- The abstract operation `ToNumber` on a string of decimal digits, as used by
the loose comparison `C != 1`: the empty string is `0`, a string of digits is
its value, anything else is `NaN` (here `none`). -/
def toNumber (s : List Char) : Option Nat :=
  if s.all Char.isDigit then
    some (s.foldl (fun n c => 10 * n + (c.toNat - 48)) 0)
  else none

/-! ## The bit view -/

/-- Bit `offset` of a `BitView` of the package `bit-buffer`, which
`rplidar.js` imports: bits are numbered from the least significant bit of
byte 0 upwards, bit `8 * k + j` being bit `j` of byte `k`
(`view[offset >> 3] >> (offset & 7) & 1`). -/
def BitView.getBit (view : Buffer) (offset : Nat) : Nat :=
  (byteAt view (offset / 8) >>> (offset % 8)) &&& 1

/-- The method `BitView.prototype.getBits(offset, bits, false)` of the package
`bit-buffer`: it throws when fewer than `bits` bits are available from
`offset`, and otherwise assembles the unsigned little-endian value whose bit
`i` is bit `offset + i` of the view. -/
def BitView.getBits (view : Buffer) (offset bits : Nat) : Option Nat :=
  if (bits : Int) > (view.length : Int) * 8 - (offset : Int) then none
  else
    some ((List.range bits).foldl
      (fun value i => value ||| (BitView.getBit view (offset + i) <<< i)) 0)

/-! ## Decoding one scan unit -/

/-- The exceptions `parseScan` can raise. -/
inductive ScanError
  /-- The error `'ParseError: !S === S'`. -/
  | startFlags
  /-- The error `'ParseError: C not 1'`. -/
  | checkBit
  /-- The error `'ParseError: Angle parsed outside 0-360 range'`. -/
  | angleRange
  /-- The error `'Cannot get … bit(s) from offset …'` raised by `getBits`. -/
  | bitView
  deriving DecidableEq, Repr

/-- Whether the exception is one of the three `ParseError`s. -/
def ScanError.isParseError : ScanError → Bool
  | .startFlags => true
  | .checkBit => true
  | .angleRange => true
  | .bitView => false

/-- The object `{start, quality, angle, distance}` returned by `parseScan`;
`start` is a one-character string. -/
structure ScanSample where
  start : List Char
  quality : Nat
  angle : ℚ
  distance : ℚ
  deriving DecidableEq

deriving instance DecidableEq for Except

/-- A call of `getBits` inside `parseScan`, its exception mapped to
`ScanError.bitView`. -/
def getBitsE (view : Buffer) (offset bits : Nat) : Except ScanError Nat :=
  match BitView.getBits view offset bits with
  | some v => .ok v
  | none => .error .bitView

/-- The source function `parseScan`. The statements run in source order: the
quality field is read first, then the two start flags are compared, then the
check bit, then the angle field is read and range-checked, then the distance
field is read. -/
def parseScan (data : Buffer) : Except ScanError ScanSample :=
  let byte0 := hexToBinaryString (byteAt data 0)
  let byte1 := hexToBinaryString (byteAt data 1)
  match getBitsE data 2 6 with
  | .error err => .error err
  | .ok quality =>
    let start := substring byte0 7 8
    let inverseStart := substring byte0 6 7
    if start = inverseStart then .error ScanError.startFlags
    else
      let C := substring byte1 7 8
      if toNumber C ≠ some 1 then .error ScanError.checkBit
      else
        match getBitsE data 9 15 with
        | .error err => .error err
        | .ok angleField =>
          let angle : ℚ := (angleField : ℚ) / 64
          if angle < 0 ∨ angle > 360 then .error ScanError.angleRange
          else
            match getBitsE data 24 16 with
            | .error err => .error err
            | .ok distanceField =>
              let distance : ℚ := (distanceField : ℚ) / 4
              .ok { start := start, quality := quality, angle := angle, distance := distance }

/-! ## Recognising the fixed responses -/

/-- The expression `buffer[i]`: `none` stands for `undefined`. -/
def elem (buffer : Buffer) (i : Nat) : Option Nat :=
  (buffer.get? i).map (fun b => b.val)

/-- The constant `START_FLAG`. -/
def START_FLAG : Nat := 0xA5

/-- The constant `START_FLAG2`. -/
def START_FLAG2 : Nat := 0x5A

/-- The constant `RESPONSES.INFO.bytes`. -/
def RESPONSES_INFO_bytes : List Nat :=
  [START_FLAG, START_FLAG2, 0x14, 0x00, 0x00, 0x00, 0x04]

/-- The constant `RESPONSES.INFO.dataLength`. -/
def RESPONSES_INFO_dataLength : Nat := 20

/-- The source function `isHealthCheckResponse`. -/
def isHealthCheckResponse (buffer : Buffer) : Bool :=
  if buffer.length ≠ 10 then false
  else
    elem buffer 0 == some START_FLAG
      && elem buffer 1 == some 0x5A
      && elem buffer 2 == some 0x03
      && elem buffer 3 == some 0x00
      && elem buffer 4 == some 0x00
      && elem buffer 5 == some 0x00
      && elem buffer 6 == some 0x06

/-- The source function `isInfoCheckResponse`: the loop returns `false` at the
first index whose byte differs from the preamble. -/
def isInfoCheckResponse (buffer : Buffer) : Bool :=
  if buffer.length ≠ RESPONSES_INFO_bytes.length + RESPONSES_INFO_dataLength then false
  else
    (List.range RESPONSES_INFO_bytes.length).all
      (fun i => elem buffer i == RESPONSES_INFO_bytes.get? i)

/-- The source function `isScanStart`. -/
def isScanStart (buffer : Buffer) : Bool :=
  if buffer.length ≠ 7 then false
  else
    elem buffer 0 == some START_FLAG
      && elem buffer 1 == some 0x5A
      && elem buffer 2 == some 0x05
      && elem buffer 3 == some 0x00
      && elem buffer 4 == some 0x00
      && elem buffer 5 == some 0x40
      && elem buffer 6 == some 0x81

/-- The source function `isBootUpMessage`. -/
def isBootUpMessage (buffer : Buffer) : Bool :=
  if buffer.length ≠ 56 then false
  else
    elem buffer 0 == some 0x52
      && elem buffer 1 == some 0x50
      && elem buffer 2 == some 0x20
      && elem buffer 3 == some 0x4c
      && elem buffer 4 == some 0x49
      && elem buffer 5 == some 0x44
      && elem buffer 6 == some 0x41
      && elem buffer 7 == some 0x52

/-- The call `parseInt(string, 2)` on a string without sign or leading blanks:
the value of the longest prefix of binary digits, `NaN` (here `none`) when that
prefix is empty. -/
def parseInt2 (s : List Char) : Option Nat :=
  let digits := s.takeWhile (fun c => c == '0' || c == '1')
  if digits.isEmpty then none
  else some (digits.foldl (fun n c => 2 * n + (c.toNat - 48)) 0)

/-- The object returned by `parseInfo`. -/
structure DeviceInfo where
  model : Option Nat
  firmware_minor : Option Nat
  firmware_major : Option Nat
  hardware : Option Nat
  serial_number : List Char
  deriving DecidableEq

/-- The source function `parseInfo`; `item.toString(16)` is the unpadded
lower-case hexadecimal rendering. -/
def parseInfo (buffer : Buffer) : DeviceInfo :=
  { model := elem buffer 7
    firmware_minor := elem buffer 8
    firmware_major := elem buffer 9
    hardware := elem buffer 10
    serial_number :=
      (slice buffer 11 27).foldl (fun acc item => acc ++ Nat.toDigits 16 item.val) [] }

/-! ## The parser closure -/

/-- The typed notifications the parser emits. -/
inductive Event
  /-- The event `'health'` with its `{status, errorCode}` payload. -/
  | health (status errorCode : Option Nat)
  /-- The event `'info'`. -/
  | info (info : DeviceInfo)
  /-- The event `'scan-start'`. -/
  | scanStart
  /-- The event `'boot'`; the payload `String(buffer)` is kept as its bytes. -/
  | boot (message : Buffer)
  /-- The event `'data'` carrying one decoded sample. -/
  | data (sample : ScanSample)
  /-- The event `'error'` carrying the caught exception. -/
  | error (err : ScanError)
  deriving DecidableEq

/-- The object `emit` is called on: the `emitter` argument of the closure, or
its `this` (the boot branch calls `this.emit`). -/
inductive Receiver
  | emitter
  | thisArg
  deriving DecidableEq

/-- One call of `emit`. -/
structure Emission where
  receiver : Receiver
  event : Event
  deriving DecidableEq

/-- The values the loop variable `offset` takes in
`for(let offset = 0; offset < limit; offset += 5)`: the multiples of five
below `limit`, in increasing order. -/
def loopOffsets (limit : Nat) : List Nat :=
  (List.range ((limit + 4) / 5)).map (fun k => 5 * k)

/-- The body of the `for` loop run over the given offsets: each unit
`data.slice(offset, offset + 5)` is decoded and emitted as `'data'`; the first
exception leaves the loop with what was emitted so far. -/
def scanLoop (data : Buffer) : List Nat → List Emission → List Emission × Option ScanError
  | [], emitted => (emitted, none)
  | offset :: rest, emitted =>
    match parseScan (slice data offset (offset + 5)) with
    | .ok sample => scanLoop data rest (emitted ++ [⟨Receiver.emitter, Event.data sample⟩])
    | .error err => (emitted, some err)

/-- The closure returned by `RPLidar.parser()`, as a function of the captured
variable `_scanCache` and the inbound `buffer`: it returns the calls of `emit`
in order and the new value of `_scanCache`. -/
def parser (scanCache : Buffer) (buffer : Buffer) : List Emission × Buffer :=
  if isHealthCheckResponse buffer then
    ([⟨Receiver.emitter,
        Event.health (parseInt2 (hexToBinaryString (byteAt buffer 7)))
          (parseInt2 (hexToBinaryString (byteAt buffer 9) ++ hexToBinaryString (byteAt buffer 8)))⟩],
      scanCache)
  else if isInfoCheckResponse buffer then
    ([⟨Receiver.emitter, Event.info (parseInfo buffer)⟩], scanCache)
  else if isScanStart buffer then
    ([⟨Receiver.emitter, Event.scanStart⟩], scanCache)
  else if isBootUpMessage buffer then
    ([⟨Receiver.thisArg, Event.boot buffer⟩], scanCache)
  else if buffer.length = 256 then
    let data := scanCache ++ buffer
    let dataLength := data.length
    let extraBits := dataLength % 5
    match scanLoop data (loopOffsets (dataLength - extraBits)) [] with
    | (emitted, none) => (emitted, slice data (dataLength - extraBits) dataLength)
    | (emitted, some err) => (emitted ++ [⟨Receiver.emitter, Event.error err⟩], scanCache)
  else
    ([], scanCache)

/-- The samples carried by the `'data'` events of a list of emissions. -/
def samplesOf : List Emission → List ScanSample
  | [] => []
  | ⟨_, Event.data sample⟩ :: rest => sample :: samplesOf rest
  | _ :: rest => samplesOf rest

/-- The exceptions carried by the `'error'` events of a list of emissions. -/
def errorsOf : List Emission → List ScanError
  | [] => []
  | ⟨_, Event.error err⟩ :: rest => err :: errorsOf rest
  | _ :: rest => errorsOf rest

/-- Two deliveries in a row to the same parser instance: the emissions of both
and the final `_scanCache`. -/
def deliverTwo (scanCache : Buffer) (first second : Buffer) : List Emission × Buffer :=
  let r1 := parser scanCache first
  let r2 := parser r1.2 second
  (r1.1 ++ r2.1, r2.2)

/-- The `i`-th five-byte unit of a buffer. -/
def unitAt (data : Buffer) (i : Nat) : Buffer :=
  slice data (5 * i) (5 * i + 5)

/-- The `'data'` emission for a decoded unit, nothing for a unit that failed. -/
def dataEmission : Except ScanError ScanSample → Option Emission
  | .ok sample => some ⟨Receiver.emitter, Event.data sample⟩
  | .error _ => none

/-- The `'data'` emissions of the units `0, …, n - 1` of a buffer, in order. -/
def unitEmissions (data : Buffer) (n : Nat) : List Emission :=
  (List.range n).filterMap (fun j => dataEmission (parseScan (unitAt data j)))

/-- A stream of 512 bytes cut into five-byte units from offset 0: unit 0 is
malformed (both flags clear), units 1 to 101 are the valid unit
`[2, 1, 1, 0, 0]`, and the last two bytes begin unit 102. -/
def exampleStream : Buffer :=
  [0, 1, 1, 0, 0] ++ (List.replicate 101 [2, 1, 1, 0, 0]).flatten ++ [2, 1]

/-- The byte a `Buffer` stores for the number `n`. -/
def toByte (n : Nat) : Byte := ⟨n % 256, Nat.mod_lt n (by decide)⟩

/-- Successive deliveries to one parser instance, from `_scanCache = scanCache`:
the calls of `emit` of all deliveries in order and the final `_scanCache`. -/
def deliverAll (scanCache : Buffer) : List Buffer → List Emission × Buffer
  | [] => ([], scanCache)
  | buffer :: rest =>
    let r := parser scanCache buffer
    let rs := deliverAll r.2 rest
    (r.1 ++ rs.1, rs.2)

/-! ## The driver -/

/-- The constant `RPLIDAR_STATES`. -/
inductive DeviceState
  | UNKNOWN
  | IDLE
  | PROCESSING
  | SCANNING
  | STOP
  deriving DecidableEq

/-- The constant `MOTOR_STATES`. -/
inductive MotorState
  | OFF
  | ON
  deriving DecidableEq

/-- The listeners that `init()` registers on the port, run on one emission of
the parser while the driver is in state `state`; the result is what the driver
publishes to its own consumers with `this.emit`. The port is the `emitter`
argument of the parser. An `'error'` and a `'health'` event are forwarded
as they are, a `'data'` event is forwarded only in state `SCANNING`, and
`init()` registers no forwarding listener for the other events. -/
def portListeners (state : DeviceState) : Emission → List Event
  | ⟨Receiver.emitter, Event.error err⟩ => [Event.error err]
  | ⟨Receiver.emitter, Event.data sample⟩ =>
    if state ≠ DeviceState.SCANNING then [] else [Event.data sample]
  | ⟨Receiver.emitter, Event.health status errorCode⟩ => [Event.health status errorCode]
  | _ => []

/-- One inbound buffer handed by the port to its parser while the driver is in
state `state`: the events the driver publishes, and the new `_scanCache`. -/
def receive (state : DeviceState) (scanCache : Buffer) (buffer : Buffer) :
    List Event × Buffer :=
  let r := parser scanCache buffer
  ((r.1.map (portListeners state)).flatten, r.2)

/-- The samples of the `'data'` events among published events. -/
def publishedSamples : List Event → List ScanSample
  | [] => []
  | Event.data sample :: rest => sample :: publishedSamples rest
  | _ :: rest => publishedSamples rest

/-- The exceptions of the `'error'` events among published events. -/
def publishedErrors : List Event → List ScanError
  | [] => []
  | Event.error err :: rest => err :: publishedErrors rest
  | _ :: rest => publishedErrors rest

/-- A call on the transport: `_port.set({dtr: …})` or `_port.write(…)`. -/
inductive PortCall
  | set (dtr : Bool)
  | write (bytes : List Nat)
  deriving DecidableEq

/-- The values the field `waitingFor` takes: not yet assigned, `false`, or one
of the strings `'HEALTH'`, `'INFO'`, `'SCAN_START'`, `'SCAN'`. -/
inductive WaitingFor
  | unassigned
  | no
  | HEALTH
  | INFO
  | SCAN_START
  | SCAN
  deriving DecidableEq

/-- The constant `COMMANDS.SCAN`, the frame `Buffer.from([START_FLAG, 0x20])`. -/
def COMMANDS_SCAN : List Nat := [START_FLAG, 0x20]

/-- The fields of an `RPLidar` instance that `scan()` reads and writes, the
number of `once('scan-start', …)` listeners of `scan()` registered on the
port, and the calls made on the port so far, oldest first. -/
structure Driver where
  state : DeviceState
  motorState : MotorState
  waitingFor : WaitingFor
  scanStartListeners : Nat
  calls : List PortCall
  deriving DecidableEq

/-- The source method `startMotor`, up to the promise `wait(5)` it returns. -/
def startMotor (d : Driver) : Driver :=
  { d with calls := d.calls ++ [PortCall.set false], motorState := MotorState.ON }

/-- The synchronous part of the source method `scan`: the choice of
`motorPromise`, which calls `startMotor` when the motor is off and only sets a
timer otherwise. -/
def scanCall (d : Driver) : Driver :=
  if d.motorState = MotorState.OFF then startMotor d else d

/-- The callback `scan` passes to `motorPromise.then`, run once `motorPromise`
has resolved: it sets `PROCESSING`, writes the Scan frame and registers the
one-shot `'scan-start'` listener. -/
def scanThen (d : Driver) : Driver :=
  { d with
    state := DeviceState.PROCESSING
    waitingFor := WaitingFor.SCAN_START
    calls := d.calls ++ [PortCall.write COMMANDS_SCAN]
    scanStartListeners := d.scanStartListeners + 1 }

/-- A `'scan-start'` event on the port: every registered one-shot listener of
`scan` runs and is removed; without such a listener nothing changes. -/
def onScanStart (d : Driver) : Driver :=
  if d.scanStartListeners = 0 then d
  else
    { d with
      state := DeviceState.SCANNING
      waitingFor := WaitingFor.SCAN
      scanStartListeners := 0 }

/-! ## Bit-level facts about a five-byte unit -/

theorem range_six : List.range 6 = [0, 1, 2, 3, 4, 5] := by decide

theorem range_fifteen :
    List.range 15 = [0, 1, 2, 3, 4, 5, 6, 7, 8, 9, 10, 11, 12, 13, 14] := by decide

theorem range_sixteen :
    List.range 16 = [0, 1, 2, 3, 4, 5, 6, 7, 8, 9, 10, 11, 12, 13, 14, 15] := by decide

set_option maxRecDepth 100000 in
/-- The two flag characters of `byte0` are equal exactly when the two low bits
of the byte are. -/
theorem startFlags_eq_iff (b : Byte) :
    substring (hexToBinaryString b.val) 7 8 = substring (hexToBinaryString b.val) 6 7 ↔
      b.val % 2 = b.val / 2 % 2 := by
  revert b; decide

set_option maxRecDepth 100000 in
/-- The last character of the binary string is the digit of the lowest bit. -/
theorem start_eq (b : Byte) :
    substring (hexToBinaryString b.val) 7 8 = [Nat.digitChar (b.val % 2)] := by
  revert b; decide

set_option maxRecDepth 100000 in
/-- The comparison `C != 1` holds exactly when the lowest bit of `byte1` is clear. -/
theorem checkBit_ne_iff (b : Byte) :
    toNumber (substring (hexToBinaryString b.val) 7 8) ≠ some 1 ↔ b.val % 2 = 0 := by
  revert b; decide

set_option maxRecDepth 100000 in
theorem highBits_seven (b : Byte) :
    ((b.val >>> 1 &&& 1) <<< 0 ||| ((b.val >>> 2 &&& 1) <<< 1 ||| ((b.val >>> 3 &&& 1) <<< 2 |||
      ((b.val >>> 4 &&& 1) <<< 3 ||| ((b.val >>> 5 &&& 1) <<< 4 ||| ((b.val >>> 6 &&& 1) <<< 5 |||
        (b.val >>> 7 &&& 1) <<< 6)))))) = b.val / 2 := by
  revert b; decide

set_option maxRecDepth 100000 in
theorem allBits_eight (k : Nat) (hk : k ≤ 8) (b : Byte) :
    ((b.val >>> 0 &&& 1) <<< k ||| ((b.val >>> 1 &&& 1) <<< (k + 1) |||
      ((b.val >>> 2 &&& 1) <<< (k + 2) ||| ((b.val >>> 3 &&& 1) <<< (k + 3) |||
        ((b.val >>> 4 &&& 1) <<< (k + 4) ||| ((b.val >>> 5 &&& 1) <<< (k + 5) |||
          ((b.val >>> 6 &&& 1) <<< (k + 6) ||| (b.val >>> 7 &&& 1) <<< (k + 7)))))))) =
      2 ^ k * b.val := by
  interval_cases k <;> (revert b; decide)

theorem lor_split_seven (t0 t1 t2 t3 t4 t5 t6 x : Nat) :
    t0 ||| (t1 ||| (t2 ||| (t3 ||| (t4 ||| (t5 ||| (t6 ||| x)))))) =
      (t0 ||| (t1 ||| (t2 ||| (t3 ||| (t4 ||| (t5 ||| t6)))))) ||| x := by
  simp only [Nat.or_assoc]

theorem lor_split_eight (t0 t1 t2 t3 t4 t5 t6 t7 x : Nat) :
    t0 ||| (t1 ||| (t2 ||| (t3 ||| (t4 ||| (t5 ||| (t6 ||| (t7 ||| x))))))) =
      (t0 ||| (t1 ||| (t2 ||| (t3 ||| (t4 ||| (t5 ||| (t6 ||| t7))))))) ||| x := by
  simp only [Nat.or_assoc]

set_option maxRecDepth 100000 in
/-- The call `getBits(2, 6)` on a five-byte unit reads the six high bits of byte 0. -/
theorem getBits_quality (b0 b1 b2 b3 b4 : Byte) :
    BitView.getBits [b0, b1, b2, b3, b4] 2 6 = some (b0.val / 4) := by
  simp only [BitView.getBits, BitView.getBit, byteAt, range_six, List.foldl_cons,
    List.foldl_nil, Nat.reduceAdd, Nat.reduceDiv, Nat.reduceMod, List.get?_cons_zero,
    List.get?_cons_succ, List.length_cons, List.length_nil]
  rw [if_neg (by decide)]
  congr 1
  revert b0
  decide

/-- The call `getBits(9, 15)` on a five-byte unit reads the seven high bits of
byte 1 as the low part and byte 2 as the high part. -/
theorem getBits_angle (b0 b1 b2 b3 b4 : Byte) :
    BitView.getBits [b0, b1, b2, b3, b4] 9 15 = some (b1.val / 2 + 128 * b2.val) := by
  simp only [BitView.getBits, BitView.getBit, byteAt, range_fifteen, List.foldl_cons,
    List.foldl_nil, Nat.reduceAdd, Nat.reduceDiv, Nat.reduceMod, List.get?_cons_zero,
    List.get?_cons_succ, List.length_cons, List.length_nil]
  rw [if_neg (by decide)]
  congr 1
  simp only [Nat.or_assoc, Nat.zero_or]
  rw [lor_split_seven, highBits_seven b1]
  have h := allBits_eight 7 (by decide) b2
  simp only [Nat.reduceAdd, Nat.reducePow] at h
  rw [h, Nat.or_comm, Nat.add_comm]
  exact (Nat.mul_add_lt_is_or (i := 7) (by have := b1.isLt; omega) _).symm

/-- The call `getBits(24, 16)` on a five-byte unit reads bytes 3 and 4 as a
little-endian 16-bit number. -/
theorem getBits_distance (b0 b1 b2 b3 b4 : Byte) :
    BitView.getBits [b0, b1, b2, b3, b4] 24 16 = some (b3.val + 256 * b4.val) := by
  simp only [BitView.getBits, BitView.getBit, byteAt, range_sixteen, List.foldl_cons,
    List.foldl_nil, Nat.reduceAdd, Nat.reduceDiv, Nat.reduceMod, List.get?_cons_zero,
    List.get?_cons_succ, List.length_cons, List.length_nil]
  rw [if_neg (by decide)]
  congr 1
  simp only [Nat.or_assoc, Nat.zero_or]
  rw [lor_split_eight]
  have h0 := allBits_eight 0 (by decide) b3
  have h := allBits_eight 8 (by decide) b4
  simp only [Nat.reduceAdd, Nat.reducePow, Nat.zero_add, Nat.one_mul] at h h0
  rw [h, h0, Nat.or_comm, Nat.add_comm]
  exact (Nat.mul_add_lt_is_or (i := 8) b3.isLt _).symm

/-- The range test on the angle, in terms of the raw field. -/
theorem angle_out_of_range_iff (x : Nat) :
    ((x : ℚ) / 64 < 0 ∨ (x : ℚ) / 64 > 360) ↔ 23040 < x := by
  constructor
  · rintro (h | h)
    · have h0 : (0 : ℚ) ≤ (x : ℚ) / 64 := by positivity
      exact absurd h (not_lt.mpr h0)
    · have h1 : (360 : ℚ) * 64 < (x : ℚ) := by
        have := (lt_div_iff₀ (by norm_num : (0 : ℚ) < 64)).mp h
        linarith
      have h2 : ((23040 : ℕ) : ℚ) < (x : ℚ) := by push_cast; linarith
      exact_mod_cast h2
  · intro h
    right
    have h2 : ((23040 : ℕ) : ℚ) < (x : ℚ) := by exact_mod_cast h
    have h3 : (360 : ℚ) * 64 < (x : ℚ) := by push_cast at h2; linarith
    exact (lt_div_iff₀ (by norm_num : (0 : ℚ) < 64)).mpr h3

/-- What `parseScan` computes on a five-byte unit, in closed form. -/
theorem parseScan_unit (b0 b1 b2 b3 b4 : Byte) :
    parseScan [b0, b1, b2, b3, b4] =
      if b0.val % 2 = b0.val / 2 % 2 then Except.error ScanError.startFlags
      else if b1.val % 2 = 0 then Except.error ScanError.checkBit
      else if 23040 < b1.val / 2 + 128 * b2.val then Except.error ScanError.angleRange
      else Except.ok
        { start := [Nat.digitChar (b0.val % 2)]
          quality := b0.val / 4
          angle := ((b1.val / 2 + 128 * b2.val : ℕ) : ℚ) / 64
          distance := ((b3.val + 256 * b4.val : ℕ) : ℚ) / 4 } := by
  have e0 : byteAt [b0, b1, b2, b3, b4] 0 = b0.val := rfl
  have e1 : byteAt [b0, b1, b2, b3, b4] 1 = b1.val := rfl
  unfold parseScan getBitsE
  simp only [e0, e1, getBits_quality, getBits_angle, getBits_distance, startFlags_eq_iff,
    checkBit_ne_iff, angle_out_of_range_iff]
  simp only [start_eq]

/-- A buffer of length five is a list of five bytes. -/
theorem five_bytes (data : Buffer) (h : data.length = 5) :
    ∃ b0 b1 b2 b3 b4 : Byte, data = [b0, b1, b2, b3, b4] := by
  match data, h with
  | [b0, b1, b2, b3, b4], _ => exact ⟨b0, b1, b2, b3, b4, rfl⟩

/-! ## The scan branch of the parser -/

/-- The loop bound `dataLength - extraBits` makes the loop visit the offsets
`5 * j` for `j < dataLength / 5`. -/
theorem loopOffsets_eq (n : Nat) :
    loopOffsets (n - n % 5) = (List.range (n / 5)).map (fun k => 5 * k) := by
  unfold loopOffsets
  have h : (n - n % 5 + 4) / 5 = n / 5 := by omega
  rw [h]

/-- A loop over units that all decode emits one `'data'` event per unit and
runs to completion. -/
theorem scanLoop_ok (data : Buffer) (offsets : List Nat) (emitted : List Emission)
    (h : ∀ o ∈ offsets, ∃ s, parseScan (slice data o (o + 5)) = Except.ok s) :
    scanLoop data offsets emitted =
      (emitted ++ offsets.filterMap (fun o => dataEmission (parseScan (slice data o (o + 5)))),
        none) := by
  induction offsets generalizing emitted with
  | nil => simp [scanLoop]
  | cons o rest ih =>
    obtain ⟨s, hs⟩ := h o (List.mem_cons_self o rest)
    have hrest : ∀ o' ∈ rest, ∃ s, parseScan (slice data o' (o' + 5)) = Except.ok s :=
      fun o' ho' => h o' (List.mem_cons_of_mem o ho')
    have hd : dataEmission (Except.ok s) = some ⟨Receiver.emitter, Event.data s⟩ := rfl
    simp only [scanLoop, hs, List.filterMap_cons, hd]
    rw [ih _ hrest]
    simp

/-- A loop whose first failing unit is at offset `o` emits the `'data'` events
of the units before it and leaves with the exception. -/
theorem scanLoop_fail (data : Buffer) (pre post : List Nat) (o : Nat) (err : ScanError)
    (emitted : List Emission)
    (h : ∀ o' ∈ pre, ∃ s, parseScan (slice data o' (o' + 5)) = Except.ok s)
    (herr : parseScan (slice data o (o + 5)) = Except.error err) :
    scanLoop data (pre ++ o :: post) emitted =
      (emitted ++ pre.filterMap (fun o' => dataEmission (parseScan (slice data o' (o' + 5)))),
        some err) := by
  induction pre generalizing emitted with
  | nil => simp [scanLoop, herr]
  | cons p rest ih =>
    obtain ⟨s, hs⟩ := h p (List.mem_cons_self p rest)
    have hrest : ∀ o' ∈ rest, ∃ s, parseScan (slice data o' (o' + 5)) = Except.ok s :=
      fun o' ho' => h o' (List.mem_cons_of_mem p ho')
    have hd : dataEmission (Except.ok s) = some ⟨Receiver.emitter, Event.data s⟩ := rfl
    simp only [List.cons_append, scanLoop, hs, List.filterMap_cons, hd]
    rw [show rest.append (o :: post) = rest ++ o :: post from rfl, ih _ hrest]
    simp

/-- The emissions of the units below `n`, read off the offsets `5 * j`. -/
theorem filterMap_offsets (data : Buffer) (n : Nat) :
    ((List.range n).map (fun k => 5 * k)).filterMap
        (fun o => dataEmission (parseScan (slice data o (o + 5)))) =
      unitEmissions data n := by
  rw [List.filterMap_map]
  rfl

/-- No recogniser accepts a buffer of 256 bytes, so such a buffer takes the
scan branch. -/
theorem parser_chunk (r c : Buffer) (hc : c.length = 256) :
    parser r c =
      match scanLoop (r ++ c) (loopOffsets ((r ++ c).length - (r ++ c).length % 5)) [] with
      | (emitted, none) =>
        (emitted, slice (r ++ c) ((r ++ c).length - (r ++ c).length % 5) (r ++ c).length)
      | (emitted, some err) => (emitted ++ [⟨Receiver.emitter, Event.error err⟩], r) := by
  unfold parser
  simp [isHealthCheckResponse, isInfoCheckResponse, isScanStart, isBootUpMessage, hc,
    RESPONSES_INFO_bytes, RESPONSES_INFO_dataLength]

/-- A chunk of 256 bytes all of whose units decode: one `'data'` event per
unit, and the trailing bytes become the new residue. -/
theorem parser_chunk_ok (r c : Buffer) (hc : c.length = 256)
    (h : ∀ j < (r ++ c).length / 5, ∃ s, parseScan (unitAt (r ++ c) j) = Except.ok s) :
    parser r c =
      (unitEmissions (r ++ c) ((r ++ c).length / 5),
        slice (r ++ c) ((r ++ c).length - (r ++ c).length % 5) (r ++ c).length) := by
  rw [parser_chunk r c hc, loopOffsets_eq, scanLoop_ok, filterMap_offsets]
  · simp
  · intro o ho
    obtain ⟨j, hj, rfl⟩ := List.mem_map.mp ho
    exact h j (List.mem_range.mp hj)

/-- A chunk of 256 bytes whose first failing unit has index `i`: the `'data'`
events of the units before it, one `'error'` event, and the old residue. -/
theorem parser_chunk_fail (r c : Buffer) (i : Nat) (err : ScanError) (hc : c.length = 256)
    (hi : i < (r ++ c).length / 5)
    (hok : ∀ j < i, ∃ s, parseScan (unitAt (r ++ c) j) = Except.ok s)
    (hbad : parseScan (unitAt (r ++ c) i) = Except.error err) :
    parser r c = (unitEmissions (r ++ c) i ++ [⟨Receiver.emitter, Event.error err⟩], r) := by
  have hsplit : List.range ((r ++ c).length / 5) =
      List.range i ++ i :: (List.range ((r ++ c).length / 5 - i - 1)).map (fun k => i + 1 + k) := by
    have hn : (r ++ c).length / 5 = i + (((r ++ c).length / 5 - i - 1) + 1) := by omega
    conv_lhs => rw [hn, List.range_add, List.range_succ_eq_map]
    simp [Function.comp_def, Nat.add_assoc, Nat.add_comm 1]
  rw [parser_chunk r c hc, loopOffsets_eq, hsplit, List.map_append, List.map_cons,
    scanLoop_fail (r ++ c) _ _ _ err, filterMap_offsets]
  · simp
  · intro o ho
    obtain ⟨j, hj, rfl⟩ := List.mem_map.mp ho
    exact hok j (List.mem_range.mp hj)
  · exact hbad

/-- A buffer whose length is not 256 never reaches the scan decoder: it emits
no `'data'` and no `'error'` event and leaves the residue as it was. -/
theorem parser_not_chunk (r b : Buffer) (hb : b.length ≠ 256) :
    samplesOf (parser r b).1 = [] ∧ errorsOf (parser r b).1 = [] ∧ (parser r b).2 = r := by
  unfold parser
  split_ifs <;> simp [samplesOf, errorsOf]

/-- The empty buffer emits nothing. -/
theorem parser_nil (r : Buffer) : parser r [] = ([], r) := by
  simp [parser, isHealthCheckResponse, isInfoCheckResponse, isScanStart, isBootUpMessage,
    RESPONSES_INFO_bytes, RESPONSES_INFO_dataLength]

theorem samplesOf_append (l1 l2 : List Emission) :
    samplesOf (l1 ++ l2) = samplesOf l1 ++ samplesOf l2 := by
  induction l1 with
  | nil => rfl
  | cons e rest ih =>
    obtain ⟨rcv, ev⟩ := e
    cases ev <;> simp [samplesOf, ih]

theorem errorsOf_append (l1 l2 : List Emission) :
    errorsOf (l1 ++ l2) = errorsOf l1 ++ errorsOf l2 := by
  induction l1 with
  | nil => rfl
  | cons e rest ih =>
    obtain ⟨rcv, ev⟩ := e
    cases ev <;> simp [errorsOf, ih]

/-- The samples among the emissions of the first `n` units are the results of
`parseScan` on those units, in order, and no error is among them. -/
theorem unitEmissions_samples (data : Buffer) (n : Nat) :
    samplesOf (unitEmissions data n) =
        (List.range n).filterMap (fun j => (parseScan (unitAt data j)).toOption) ∧
      errorsOf (unitEmissions data n) = [] := by
  unfold unitEmissions
  induction List.range n with
  | nil => exact ⟨rfl, rfl⟩
  | cons j rest ih =>
    cases h : parseScan (unitAt data j) with
    | error e =>
      have e1 : dataEmission (Except.error e) = none := rfl
      have e2 : (Except.error e : Except ScanError ScanSample).toOption = none := rfl
      simp only [List.filterMap_cons, h, e1, e2]
      exact ih
    | ok s =>
      have e1 : dataEmission (Except.ok s) = some ⟨Receiver.emitter, Event.data s⟩ := rfl
      have e2 : (Except.ok s : Except ScanError ScanSample).toOption = some s := rfl
      simp only [List.filterMap_cons, h, e1, e2, samplesOf, errorsOf]
      exact ⟨by rw [ih.1], ih.2⟩

/-- When the first `n` units all decode, they give `n` emissions. -/
theorem unitEmissions_length (data : Buffer) (n : Nat)
    (h : ∀ j < n, ∃ s, parseScan (unitAt data j) = Except.ok s) :
    (unitEmissions data n).length = n := by
  unfold unitEmissions
  have key : ∀ l : List Nat, (∀ j ∈ l, ∃ s, parseScan (unitAt data j) = Except.ok s) →
      (l.filterMap (fun j => dataEmission (parseScan (unitAt data j)))).length = l.length := by
    intro l
    induction l with
    | nil => intro _; rfl
    | cons j rest ih =>
      intro hl
      obtain ⟨s, hs⟩ := hl j (List.mem_cons_self j rest)
      have hrest := ih (fun j' hj' => hl j' (List.mem_cons_of_mem j hj'))
      have e1 : dataEmission (Except.ok s) = some ⟨Receiver.emitter, Event.data s⟩ := rfl
      simp only [List.filterMap_cons, hs, e1, List.length_cons, hrest]
  rw [key _ (fun j hj => h j (List.mem_range.mp hj)), List.length_range]

/-! ## The claims -/

/-- C1: round trip against the protocol encoder. For quality `q ≤ 63`, start
flag `s ≤ 1`, raw angle `a ≤ 23040` and raw distance `d ≤ 65535`, the five
numbers of the encoded unit fit in a byte and `parseScan` decodes the unit to
`start = s` (as its digit), `quality = q`, `angle = a / 64`, `distance = d / 4`. -/
theorem parseScan_roundtrip (q s a d : Nat) (hq : q ≤ 63) (hs : s ≤ 1) (ha : a ≤ 23040)
    (hd : d ≤ 65535) :
    (4 * q + 2 * (1 - s) + s < 256 ∧ 2 * (a % 128) + 1 < 256 ∧ a / 128 < 256 ∧
      d % 256 < 256 ∧ d / 256 < 256) ∧
    parseScan [toByte (4 * q + 2 * (1 - s) + s), toByte (2 * (a % 128) + 1), toByte (a / 128),
        toByte (d % 256), toByte (d / 256)] =
      Except.ok
        { start := [Nat.digitChar s], quality := q, angle := (a : ℚ) / 64,
          distance := (d : ℚ) / 4 } := by
  have hs' : s = 0 ∨ s = 1 := by omega
  have c0 : ¬ (4 * q + 2 * (1 - s) + s) % 2 = (4 * q + 2 * (1 - s) + s) / 2 % 2 := by
    rcases hs' with rfl | rfl <;> omega
  have c1 : ¬ (2 * (a % 128) + 1) % 2 = 0 := by omega
  have c2 : ¬ 23040 < (2 * (a % 128) + 1) / 2 + 128 * (a / 128) := by omega
  have e0 : (4 * q + 2 * (1 - s) + s) % 2 = s := by
    rcases hs' with rfl | rfl <;> omega
  have e1 : (4 * q + 2 * (1 - s) + s) / 4 = q := by
    rcases hs' with rfl | rfl <;> omega
  have e2 : (2 * (a % 128) + 1) / 2 + 128 * (a / 128) = a := by omega
  have e3 : d % 256 + 256 * (d / 256) = d := by omega
  have n0 : 4 * q + 2 * (1 - s) + s < 256 := by
    rcases hs' with rfl | rfl <;> omega
  have n1 : 2 * (a % 128) + 1 < 256 := by omega
  have n2 : a / 128 < 256 := by omega
  have n3 : d % 256 < 256 := by omega
  have n4 : d / 256 < 256 := by omega
  refine ⟨⟨n0, n1, n2, n3, n4⟩, ?_⟩
  have v0 : (toByte (4 * q + 2 * (1 - s) + s)).val = 4 * q + 2 * (1 - s) + s :=
    Nat.mod_eq_of_lt n0
  have v1 : (toByte (2 * (a % 128) + 1)).val = 2 * (a % 128) + 1 := Nat.mod_eq_of_lt n1
  have v2 : (toByte (a / 128)).val = a / 128 := Nat.mod_eq_of_lt n2
  have v3 : (toByte (d % 256)).val = d % 256 := Nat.mod_eq_of_lt n3
  have v4 : (toByte (d / 256)).val = d / 256 := Nat.mod_eq_of_lt n4
  rw [parseScan_unit, v0, v1, v2, v3, v4, if_neg c0, if_neg c1, if_neg c2, e0, e1, e2, e3]

/-- C1 at the largest admissible values. -/
theorem parseScan_roundtrip_witness :
    parseScan [toByte (4 * 63 + 2 * (1 - 1) + 1), toByte (2 * (23040 % 128) + 1),
        toByte (23040 / 128), toByte (65535 % 256), toByte (65535 / 256)] =
      Except.ok
        { start := [Nat.digitChar 1], quality := 63, angle := ((23040 : ℕ) : ℚ) / 64,
          distance := ((65535 : ℕ) : ℚ) / 4 } :=
  (parseScan_roundtrip 63 1 23040 65535 (by decide) (by decide) (by decide) (by decide)).2

/-- C2, as stated, fails: from the empty residue, the chunk of 256 bytes `1`
delivered whole yields samples and a one-byte residue, while its first 100
bytes followed by its last 156 bytes yield no sample and an empty residue. -/
theorem split_delivery_counterexample :
    ¬ (samplesOf (deliverTwo [] ((List.replicate 256 1).take 100)
          ((List.replicate 256 1).drop 100)).1 =
        samplesOf (parser [] (List.replicate 256 1)).1 ∧
      (deliverTwo [] ((List.replicate 256 1).take 100) ((List.replicate 256 1).drop 100)).2 =
        (parser [] (List.replicate 256 1)).2) := by
  decide!

/-- C2, amended: for a chunk of 256 bytes and a split point `k ≤ 256`, the two
deliveries equal the whole delivery when `k = 0` or `k = 256`; when
`0 < k < 256` neither part has 256 bytes, no part is decoded: the two
deliveries emit no `'data'` and no `'error'` event and leave the residue as it
was. -/
theorem split_delivery (r c : Buffer) (k : Nat) (hc : c.length = 256) (hk : k ≤ 256) :
    ((k = 0 ∨ k = 256) → deliverTwo r (c.take k) (c.drop k) = parser r c) ∧
    ((0 < k ∧ k < 256) →
      samplesOf (deliverTwo r (c.take k) (c.drop k)).1 = [] ∧
        errorsOf (deliverTwo r (c.take k) (c.drop k)).1 = [] ∧
        (deliverTwo r (c.take k) (c.drop k)).2 = r) := by
  constructor
  · rintro (rfl | rfl)
    · simp [deliverTwo, parser_nil]
    · have h1 : c.take 256 = c := by rw [← hc]; exact List.take_length c
      have h2 : c.drop 256 = [] := by rw [← hc]; exact List.drop_length c
      simp [deliverTwo, h1, h2, parser_nil]
  · rintro ⟨h0, h256⟩
    have l1 : (c.take k).length ≠ 256 := by rw [List.length_take]; omega
    have l2 : (c.drop k).length ≠ 256 := by rw [List.length_drop]; omega
    obtain ⟨a1, a2, a3⟩ := parser_not_chunk r (c.take k) l1
    obtain ⟨b1, b2, b3⟩ := parser_not_chunk (parser r (c.take k)).2 (c.drop k) l2
    simp only [deliverTwo]
    rw [samplesOf_append, errorsOf_append, a1, a2, b1, b2, b3, a3]
    exact ⟨rfl, rfl, rfl⟩

/-- C2, amended, on the chunk of 256 bytes `1` split at `k = 0` and at
`k = 100`. -/
theorem split_delivery_witness :
    deliverTwo [] ((List.replicate 256 1).take 0) ((List.replicate 256 1).drop 0) =
        parser [] (List.replicate 256 1) ∧
      (samplesOf (deliverTwo [] ((List.replicate 256 1).take 100)
          ((List.replicate 256 1).drop 100)).1 = [] ∧
        errorsOf (deliverTwo [] ((List.replicate 256 1).take 100)
          ((List.replicate 256 1).drop 100)).1 = [] ∧
        (deliverTwo [] ((List.replicate 256 1).take 100)
          ((List.replicate 256 1).drop 100)).2 = []) :=
  ⟨(split_delivery [] (List.replicate 256 1) 0 (List.length_replicate 256 1) (by decide)).1 (Or.inl rfl),
    (split_delivery [] (List.replicate 256 1) 100 (List.length_replicate 256 1) (by decide)).2
      ⟨by decide, by decide⟩⟩

/-- C3: when unit `i` is the first malformed unit of `r ++ c` for a chunk `c` of
256 bytes, the parser emits the `'data'` events of units `0, …, i - 1` in order
(`i` of them), then one `'error'` event and nothing else, and the residue is
still `r`. -/
theorem parser_failed_chunk (r c : Buffer) (i : Nat) (err : ScanError) (hc : c.length = 256)
    (hi : i < (r ++ c).length / 5)
    (hok : ∀ j < i, ∃ s, parseScan (unitAt (r ++ c) j) = Except.ok s)
    (hbad : parseScan (unitAt (r ++ c) i) = Except.error err) :
    parser r c = (unitEmissions (r ++ c) i ++ [⟨Receiver.emitter, Event.error err⟩], r) ∧
      (unitEmissions (r ++ c) i).length = i ∧
      samplesOf (parser r c).1 =
        (List.range i).filterMap (fun j => (parseScan (unitAt (r ++ c) j)).toOption) ∧
      errorsOf (parser r c).1 = [err] := by
  have hp := parser_chunk_fail r c i err hc hi hok hbad
  have hu := unitEmissions_samples (r ++ c) i
  refine ⟨hp, unitEmissions_length _ _ hok, ?_, ?_⟩
  · rw [hp, samplesOf_append, hu.1]
    simp [samplesOf]
  · rw [hp, errorsOf_append, hu.2]
    simp [errorsOf]

/-- C3 on the chunk that starts with the valid unit `[1, 1, 0, 0, 0]` and
continues with zero bytes, so that unit 1 is the first malformed one. -/
theorem parser_failed_chunk_witness :
    parser [] ([1, 1, 0, 0, 0] ++ List.replicate 251 0) =
        (unitEmissions ([] ++ ([1, 1, 0, 0, 0] ++ List.replicate 251 0)) 1 ++
          [⟨Receiver.emitter, Event.error ScanError.startFlags⟩], []) ∧
      (unitEmissions ([] ++ ([1, 1, 0, 0, 0] ++ List.replicate 251 0)) 1).length = 1 ∧
      samplesOf (parser [] ([1, 1, 0, 0, 0] ++ List.replicate 251 0)).1 =
        (List.range 1).filterMap (fun j =>
          (parseScan (unitAt ([] ++ ([1, 1, 0, 0, 0] ++ List.replicate 251 0)) j)).toOption) ∧
      errorsOf (parser [] ([1, 1, 0, 0, 0] ++ List.replicate 251 0)).1 =
        [ScanError.startFlags] :=
  parser_failed_chunk [] ([1, 1, 0, 0, 0] ++ List.replicate 251 0) 1 ScanError.startFlags
    (by decide!) (by decide!)
    (fun j hj => by
      have hj0 : j = 0 := by omega
      subst hj0
      exact ⟨⟨['1'], 0, 0, 0⟩, by decide!⟩)
    (by decide!)

/-- C4 at a failing input: the first chunk of `exampleStream` fails on unit 0
and leaves the empty residue; the second chunk is then decoded from stream
offset 256 in steps of five, giving 51 samples of the shifted bytes
`[1, 1, 0, 0, 2]`, while the units of the stream that lie in the second chunk
(units 52 to 101, at offsets 260 to 505) all decode to another sample. -/
theorem parser_after_failed_chunk_misaligned :
    parser [] (exampleStream.take 256) =
        ([⟨Receiver.emitter, Event.error ScanError.startFlags⟩], []) ∧
      samplesOf (parser [] (exampleStream.drop 256)).1 =
        (List.range 51).filterMap (fun j =>
          (parseScan (slice exampleStream (256 + 5 * j) (256 + 5 * j + 5))).toOption) ∧
      samplesOf (parser [] (exampleStream.drop 256)).1 =
        List.replicate 51 ⟨['1'], 0, 0, 128⟩ ∧
      (List.range' 52 50).map (fun j => parseScan (unitAt exampleStream j)) =
        List.replicate 50 (Except.ok ⟨['0'], 0, 2, 0⟩) := by
  decide!

/-- C5: a unit whose start flag (lowest bit of byte 0) equals its inverse-start
flag (the next bit) fails with the `ParseError` of the flag comparison,
whatever the other bits and bytes are. -/
theorem parseScan_equal_flags (b0 b1 b2 b3 b4 : Byte) (h : b0.val % 2 = b0.val / 2 % 2) :
    parseScan [b0, b1, b2, b3, b4] = Except.error ScanError.startFlags ∧
      ScanError.startFlags.isParseError = true := by
  rw [parseScan_unit, if_pos h]
  exact ⟨rfl, rfl⟩

/-- C5 on the unit of five zero bytes. -/
theorem parseScan_equal_flags_witness :
    parseScan [0, 0, 0, 0, 0] = Except.error ScanError.startFlags ∧
      ScanError.startFlags.isParseError = true :=
  parseScan_equal_flags 0 0 0 0 0 (by decide)

/-- C6: a unit whose check bit (lowest bit of byte 1) is `0` fails with a
`ParseError`, whatever the other bits and bytes are: the one of the flag
comparison when the two flags are equal, the one of the check bit otherwise. -/
theorem parseScan_check_bit_clear (b0 b1 b2 b3 b4 : Byte) (h : b1.val % 2 = 0) :
    ∃ err, parseScan [b0, b1, b2, b3, b4] = Except.error err ∧ err.isParseError = true ∧
      (b0.val % 2 ≠ b0.val / 2 % 2 → err = ScanError.checkBit) := by
  rw [parseScan_unit]
  by_cases h0 : b0.val % 2 = b0.val / 2 % 2
  · exact ⟨ScanError.startFlags, by rw [if_pos h0], rfl, fun hne => absurd h0 hne⟩
  · exact ⟨ScanError.checkBit, by rw [if_neg h0, if_pos h], rfl, fun _ => rfl⟩

/-- C6 on a unit with valid flags and a clear check bit. -/
theorem parseScan_check_bit_clear_witness :
    ∃ err, parseScan [1, 2, 0, 0, 0] = Except.error err ∧ err.isParseError = true ∧
      ((1 : Byte).val % 2 ≠ (1 : Byte).val / 2 % 2 → err = ScanError.checkBit) :=
  parseScan_check_bit_clear 1 2 0 0 0 (by decide)

/-- C7: on a five-byte unit whose 15-bit angle field is `raw`, the quotient
`raw / 64` exceeds 360 exactly when `raw > 23040`, in that case `parseScan`
fails with a `ParseError`, and every sample `parseScan` returns for the unit
has `angle = raw / 64` with `0 ≤ angle ≤ 360`. -/
theorem parseScan_angle_range (b0 b1 b2 b3 b4 : Byte) (raw : Nat)
    (hraw : BitView.getBits [b0, b1, b2, b3, b4] 9 15 = some raw) :
    ((raw : ℚ) / 64 > 360 ↔ 23040 < raw) ∧
    ((raw : ℚ) / 64 > 360 →
      ∃ err, parseScan [b0, b1, b2, b3, b4] = Except.error err ∧ err.isParseError = true) ∧
    (∀ s, parseScan [b0, b1, b2, b3, b4] = Except.ok s →
      s.angle = (raw : ℚ) / 64 ∧ 0 ≤ s.angle ∧ s.angle ≤ 360) := by
  rw [getBits_angle] at hraw
  have hr : b1.val / 2 + 128 * b2.val = raw := Option.some.inj hraw
  subst hr
  have hiff : ((b1.val / 2 + 128 * b2.val : ℕ) : ℚ) / 64 > 360 ↔
      23040 < b1.val / 2 + 128 * b2.val := by
    rw [← angle_out_of_range_iff]
    constructor
    · exact fun h => Or.inr h
    · rintro (h | h)
      · have h0 : (0 : ℚ) ≤ ((b1.val / 2 + 128 * b2.val : ℕ) : ℚ) / 64 := by positivity
        exact absurd h (not_lt.mpr h0)
      · exact h
  refine ⟨hiff, ?_, ?_⟩
  · intro h
    have h' := hiff.mp h
    rw [parseScan_unit]
    by_cases h0 : b0.val % 2 = b0.val / 2 % 2
    · exact ⟨ScanError.startFlags, by rw [if_pos h0], rfl⟩
    · by_cases h1 : b1.val % 2 = 0
      · exact ⟨ScanError.checkBit, by rw [if_neg h0, if_pos h1], rfl⟩
      · exact ⟨ScanError.angleRange, by rw [if_neg h0, if_neg h1, if_pos h'], rfl⟩
  · intro s hs
    rw [parseScan_unit] at hs
    split_ifs at hs with h0 h1 h2
    have hs' := Except.ok.inj hs
    subst hs'
    refine ⟨rfl, by positivity, ?_⟩
    show ((b1.val / 2 + 128 * b2.val : ℕ) : ℚ) / 64 ≤ 360
    by_contra hgt
    exact h2 (hiff.mp (not_le.mp hgt))

/-- C7 on the unit `[1, 1, 255, 0, 0]`, whose angle field 32640 is out of
range, and on the accepted unit `[1, 1, 180, 0, 0]`, whose angle is 360. -/
theorem parseScan_angle_range_witness :
    (∃ err, parseScan [1, 1, 255, 0, 0] = Except.error err ∧ err.isParseError = true) ∧
    ((⟨['1'], 0, 360, 0⟩ : ScanSample).angle = ((23040 : ℕ) : ℚ) / 64 ∧
      0 ≤ (⟨['1'], 0, 360, 0⟩ : ScanSample).angle ∧
      (⟨['1'], 0, 360, 0⟩ : ScanSample).angle ≤ 360) :=
  ⟨(parseScan_angle_range 1 1 255 0 0 32640 (by decide)).2.1 (by norm_num),
    (parseScan_angle_range 1 1 180 0 0 23040 (by decide)).2.2 ⟨['1'], 0, 360, 0⟩ (by decide!)⟩

/-- C8: the angle of an accepted unit is `((byte1 div 2) + 128 * byte2) / 64`:
the seven high bits of byte 1 are the low-order part of the 15-bit field and
byte 2 its high-order part. -/
theorem parseScan_angle_value (b0 b1 b2 b3 b4 : Byte) (s : ScanSample)
    (hs : parseScan [b0, b1, b2, b3, b4] = Except.ok s) :
    s.angle = ((b1.val / 2 + 128 * b2.val : ℕ) : ℚ) / 64 ∧
      b1.val / 2 + 128 * b2.val < 2 ^ 15 ∧
      BitView.getBits [b0, b1, b2, b3, b4] 9 15 = some (b1.val / 2 + 128 * b2.val) := by
  rw [parseScan_unit] at hs
  split_ifs at hs with h0 h1 h2
  have hs' := Except.ok.inj hs
  subst hs'
  refine ⟨rfl, ?_, getBits_angle b0 b1 b2 b3 b4⟩
  have := b1.isLt
  have := b2.isLt
  omega

/-- C8 on the unit `[1, 3, 1, 0, 0]`, whose angle field is `1 + 128`. -/
theorem parseScan_angle_value_witness :
    (⟨['1'], 0, 129 / 64, 0⟩ : ScanSample).angle =
        ((((3 : Byte).val / 2 + 128 * (1 : Byte).val : ℕ)) : ℚ) / 64 ∧
      (3 : Byte).val / 2 + 128 * (1 : Byte).val < 2 ^ 15 ∧
      BitView.getBits [1, 3, 1, 0, 0] 9 15 = some ((3 : Byte).val / 2 + 128 * (1 : Byte).val) :=
  parseScan_angle_value 1 3 1 0 0 ⟨['1'], 0, 129 / 64, 0⟩ (by decide!)

/-- C9: the distance of an accepted unit is `(byte3 + 256 * byte4) / 4`, a
value between 0 and 16383.75, and bytes 3 and 4 take no part in any failure:
a unit that fails fails with the same exception whatever its last two bytes. -/
theorem parseScan_distance_value (b0 b1 b2 b3 b4 : Byte) :
    (∀ s, parseScan [b0, b1, b2, b3, b4] = Except.ok s →
      s.distance = ((b3.val + 256 * b4.val : ℕ) : ℚ) / 4 ∧ 0 ≤ s.distance ∧
        s.distance ≤ 65535 / 4) ∧
    (∀ (c3 c4 : Byte) (err : ScanError),
      parseScan [b0, b1, b2, c3, c4] = Except.error err →
        parseScan [b0, b1, b2, b3, b4] = Except.error err) := by
  constructor
  · intro s hs
    rw [parseScan_unit] at hs
    split_ifs at hs with h0 h1 h2
    have hs' := Except.ok.inj hs
    subst hs'
    refine ⟨rfl, by positivity, ?_⟩
    show ((b3.val + 256 * b4.val : ℕ) : ℚ) / 4 ≤ 65535 / 4
    have h3 := b3.isLt
    have h4 := b4.isLt
    have hle : b3.val + 256 * b4.val ≤ 65535 := by omega
    have hq : ((b3.val + 256 * b4.val : ℕ) : ℚ) ≤ ((65535 : ℕ) : ℚ) := by exact_mod_cast hle
    push_cast at hq ⊢
    linarith
  · intro c3 c4 err h
    rw [parseScan_unit] at h ⊢
    split_ifs at h ⊢ with h0 h1 h2 <;> exact h

/-- C9 on the accepted unit `[1, 1, 0, 255, 255]`, whose distance is 16383.75,
and on the unit `[1, 2, 0, 0, 0]`, which fails on its check bit. -/
theorem parseScan_distance_value_witness :
    ((⟨['1'], 0, 0, 65535 / 4⟩ : ScanSample).distance =
        (((255 : Byte).val + 256 * (255 : Byte).val : ℕ) : ℚ) / 4 ∧
      0 ≤ (⟨['1'], 0, 0, 65535 / 4⟩ : ScanSample).distance ∧
      (⟨['1'], 0, 0, 65535 / 4⟩ : ScanSample).distance ≤ 65535 / 4) ∧
    parseScan [1, 2, 0, 0, 0] = Except.error ScanError.checkBit :=
  ⟨(parseScan_distance_value 1 1 0 255 255).1 ⟨['1'], 0, 0, 65535 / 4⟩ (by decide!),
    (parseScan_distance_value 1 2 0 0 0).2 7 9 ScanError.checkBit (by decide!)⟩

/-- C10, as stated, fails: the unit `[2, 1, 0, 0, 0]` is accepted with quality
`0`, while the six low-order bits of its byte 0 have the value `2`. -/
theorem parseScan_quality_low_bits_counterexample :
    ¬ ∀ (b0 b1 b2 b3 b4 : Byte) (s : ScanSample),
      parseScan [b0, b1, b2, b3, b4] = Except.ok s → s.quality = b0.val % 64 := by
  intro h
  have h2 := h 2 1 0 0 0 ⟨['0'], 0, 0, 0⟩ (by decide!)
  exact absurd h2 (by decide)

/-- C10, amended: the quality of an accepted unit is the six high-order bits of
byte 0 (`byte0 div 4`, the field `getBits(2, 6)` of bits 2 to 7 counted from
the least significant bit), a value in `0..63`. -/
theorem parseScan_quality_value (b0 b1 b2 b3 b4 : Byte) (s : ScanSample)
    (hs : parseScan [b0, b1, b2, b3, b4] = Except.ok s) :
    s.quality = b0.val / 4 ∧ s.quality ≤ 63 ∧
      BitView.getBits [b0, b1, b2, b3, b4] 2 6 = some s.quality := by
  rw [parseScan_unit] at hs
  split_ifs at hs with h0 h1 h2
  have hs' := Except.ok.inj hs
  subst hs'
  refine ⟨rfl, ?_, getBits_quality b0 b1 b2 b3 b4⟩
  show b0.val / 4 ≤ 63
  have := b0.isLt
  omega

/-- C10, amended, on the unit `[254, 1, 0, 0, 0]`, whose quality is 63. -/
theorem parseScan_quality_value_witness :
    (⟨['0'], 63, 0, 0⟩ : ScanSample).quality = (254 : Byte).val / 4 ∧
      (⟨['0'], 63, 0, 0⟩ : ScanSample).quality ≤ 63 ∧
      BitView.getBits [254, 1, 0, 0, 0] 2 6 = some (⟨['0'], 63, 0, 0⟩ : ScanSample).quality :=
  parseScan_quality_value 254 1 0 0 0 ⟨['0'], 63, 0, 0⟩ (by decide!)

/-! ## The fixed responses -/

/-- A buffer of length seven is a list of seven bytes. -/
theorem seven_bytes (l : Buffer) (h : l.length = 7) :
    ∃ b0 b1 b2 b3 b4 b5 b6 : Byte, l = [b0, b1, b2, b3, b4, b5, b6] := by
  match l, h with
  | [b0, b1, b2, b3, b4, b5, b6], _ => exact ⟨b0, b1, b2, b3, b4, b5, b6, rfl⟩

/-- A buffer of length eight is a list of eight bytes. -/
theorem eight_bytes (l : Buffer) (h : l.length = 8) :
    ∃ b0 b1 b2 b3 b4 b5 b6 b7 : Byte, l = [b0, b1, b2, b3, b4, b5, b6, b7] := by
  match l, h with
  | [b0, b1, b2, b3, b4, b5, b6, b7], _ => exact ⟨b0, b1, b2, b3, b4, b5, b6, b7, rfl⟩

/-- A buffer of at least seven bytes starts with seven bytes. -/
theorem seven_bytes_prefix (buffer : Buffer) (h : 7 ≤ buffer.length) :
    ∃ (b0 b1 b2 b3 b4 b5 b6 : Byte) (rest : Buffer),
      buffer = b0 :: b1 :: b2 :: b3 :: b4 :: b5 :: b6 :: rest := by
  obtain ⟨b0, b1, b2, b3, b4, b5, b6, h7⟩ :=
    seven_bytes (buffer.take 7) (by rw [List.length_take]; omega)
  refine ⟨b0, b1, b2, b3, b4, b5, b6, buffer.drop 7, ?_⟩
  have := List.take_append_drop 7 buffer
  rw [h7] at this
  exact this.symm

/-- A buffer of at least eight bytes starts with eight bytes. -/
theorem eight_bytes_prefix (buffer : Buffer) (h : 8 ≤ buffer.length) :
    ∃ (b0 b1 b2 b3 b4 b5 b6 b7 : Byte) (rest : Buffer),
      buffer = b0 :: b1 :: b2 :: b3 :: b4 :: b5 :: b6 :: b7 :: rest := by
  obtain ⟨b0, b1, b2, b3, b4, b5, b6, b7, h8⟩ :=
    eight_bytes (buffer.take 8) (by rw [List.length_take]; omega)
  refine ⟨b0, b1, b2, b3, b4, b5, b6, b7, buffer.drop 8, ?_⟩
  have := List.take_append_drop 8 buffer
  rw [h8] at this
  exact this.symm

/-- The recogniser of the health response accepts exactly the buffers of ten
bytes that start with `A5 5A 03 00 00 00 06`. -/
theorem isHealthCheckResponse_iff (buffer : Buffer) :
    isHealthCheckResponse buffer = true ↔
      buffer.length = 10 ∧
        (buffer.take 7).map (fun b => b.val) = [0xA5, 0x5A, 0x03, 0x00, 0x00, 0x00, 0x06] := by
  by_cases hlen : buffer.length = 10
  · obtain ⟨b0, b1, b2, b3, b4, b5, b6, rest, rfl⟩ := seven_bytes_prefix buffer (by omega)
    simp [isHealthCheckResponse, elem, START_FLAG, hlen, and_assoc]
  · simp [isHealthCheckResponse, hlen]

/-- The recogniser of the info response accepts exactly the buffers of 27 bytes
that start with `A5 5A 14 00 00 00 04`. -/
theorem isInfoCheckResponse_iff (buffer : Buffer) :
    isInfoCheckResponse buffer = true ↔
      buffer.length = 27 ∧
        (buffer.take 7).map (fun b => b.val) = [0xA5, 0x5A, 0x14, 0x00, 0x00, 0x00, 0x04] := by
  by_cases hlen : buffer.length = 27
  · obtain ⟨b0, b1, b2, b3, b4, b5, b6, rest, rfl⟩ := seven_bytes_prefix buffer (by omega)
    simp [isInfoCheckResponse, elem, START_FLAG, START_FLAG2, RESPONSES_INFO_bytes,
      RESPONSES_INFO_dataLength, hlen, and_assoc, List.range_succ]
  · simp [isInfoCheckResponse, hlen, RESPONSES_INFO_bytes, RESPONSES_INFO_dataLength]

/-- The recogniser of the scan-start acknowledgement accepts exactly the seven
bytes `A5 5A 05 00 00 40 81`. -/
theorem isScanStart_iff (buffer : Buffer) :
    isScanStart buffer = true ↔
      buffer.map (fun b => b.val) = [0xA5, 0x5A, 0x05, 0x00, 0x00, 0x40, 0x81] := by
  by_cases hlen : buffer.length = 7
  · obtain ⟨b0, b1, b2, b3, b4, b5, b6, rfl⟩ := seven_bytes buffer hlen
    simp [isScanStart, elem, START_FLAG, and_assoc]
  · have hne : ¬ buffer.map (fun b => b.val) = [0xA5, 0x5A, 0x05, 0x00, 0x00, 0x40, 0x81] := by
      intro h
      have := congrArg List.length h
      simp at this
      exact hlen this
    simp [isScanStart, hlen, hne]

/-- The recogniser of the boot message accepts exactly the buffers of 56 bytes
that start with `52 50 20 4C 49 44 41 52`. -/
theorem isBootUpMessage_iff (buffer : Buffer) :
    isBootUpMessage buffer = true ↔
      buffer.length = 56 ∧
        (buffer.take 8).map (fun b => b.val) =
          [0x52, 0x50, 0x20, 0x4C, 0x49, 0x44, 0x41, 0x52] := by
  by_cases hlen : buffer.length = 56
  · obtain ⟨b0, b1, b2, b3, b4, b5, b6, b7, rest, rfl⟩ := eight_bytes_prefix buffer (by omega)
    simp [isBootUpMessage, elem, hlen, and_assoc]
  · simp [isBootUpMessage, hlen]

/-- The number `buffer[i] >>> 0` is below 256. -/
theorem byteAt_lt (buffer : Buffer) (i : Nat) : byteAt buffer i < 256 := by
  unfold byteAt
  cases buffer.get? i with
  | none => decide
  | some b => exact b.isLt

set_option maxRecDepth 100000 in
/-- The binary string of a byte has eight characters, all binary digits, and
its value in base two is the byte. -/
theorem hexToBinaryString_byte (b : Byte) :
    (hexToBinaryString b.val).length = 8 ∧
      (hexToBinaryString b.val).takeWhile (fun c => c == '0' || c == '1') =
        hexToBinaryString b.val ∧
      (hexToBinaryString b.val).foldl (fun n c => 2 * n + (c.toNat - 48)) 0 = b.val := by
  revert b; decide

/-- Reading binary digits after an accumulated value shifts that value. -/
theorem foldl_binary (s : List Char) (a : Nat) :
    s.foldl (fun n c => 2 * n + (c.toNat - 48)) a =
      a * 2 ^ s.length + s.foldl (fun n c => 2 * n + (c.toNat - 48)) 0 := by
  induction s generalizing a with
  | nil => simp
  | cons c rest ih =>
    simp only [List.foldl_cons, List.length_cons]
    rw [ih (2 * a + (c.toNat - 48)), ih (2 * 0 + (c.toNat - 48))]
    ring

/-- The call `parseInt(hexToBinaryString(x), 2)` gives back a byte `x`. -/
theorem parseInt2_byte (n : Nat) (h : n < 256) :
    parseInt2 (hexToBinaryString n) = some n := by
  obtain ⟨h1, h2, h3⟩ := hexToBinaryString_byte ⟨n, h⟩
  simp only at h1 h2 h3
  unfold parseInt2
  simp only [h2, h3]
  rw [if_neg]
  intro he
  rw [List.isEmpty_iff] at he
  rw [he] at h1
  exact absurd h1 (by decide)

/-- The call `parseInt` on the binary strings of two bytes, high byte first. -/
theorem parseInt2_two_bytes (hi lo : Nat) (hhi : hi < 256) (hlo : lo < 256) :
    parseInt2 (hexToBinaryString hi ++ hexToBinaryString lo) = some (lo + 256 * hi) := by
  obtain ⟨h1, h2, h3⟩ := hexToBinaryString_byte ⟨hi, hhi⟩
  obtain ⟨l1, l2, l3⟩ := hexToBinaryString_byte ⟨lo, hlo⟩
  simp only at h1 h2 h3 l1 l2 l3
  have hall : ∀ (s : List Char), s.takeWhile (fun c => c == '0' || c == '1') = s →
      ∀ c ∈ s, (c == '0' || c == '1') = true := fun s hs =>
    List.takeWhile_eq_self_iff.mp hs
  have htw : (hexToBinaryString hi ++ hexToBinaryString lo).takeWhile
      (fun c => c == '0' || c == '1') = hexToBinaryString hi ++ hexToBinaryString lo := by
    apply List.takeWhile_eq_self_iff.mpr
    intro c hc
    rcases List.mem_append.mp hc with hc | hc
    · exact hall _ h2 c hc
    · exact hall _ l2 c hc
  unfold parseInt2
  simp only [htw]
  rw [if_neg, List.foldl_append, h3, foldl_binary, l1, l3]
  · congr 1
    omega
  · intro he
    rw [List.isEmpty_iff] at he
    have := congrArg List.length he
    rw [List.length_append, h1, l1] at this
    exact absurd this (by decide)

/-- The health branch of the parser. -/
theorem parser_health_branch (r buffer : Buffer) (h : isHealthCheckResponse buffer = true) :
    parser r buffer =
      ([⟨Receiver.emitter,
          Event.health (some (byteAt buffer 7)) (some (byteAt buffer 8 + 256 * byteAt buffer 9))⟩],
        r) := by
  unfold parser
  rw [if_pos h, parseInt2_byte _ (byteAt_lt buffer 7),
    parseInt2_two_bytes _ _ (byteAt_lt buffer 9) (byteAt_lt buffer 8)]

/-- C11: on the unit `[0b00000001, 0b00000011, 0b00000000, 0b00000100, 0b00000000]`
`parseScan` succeeds with quality 0, start `'1'`, angle `1 / 64` and distance 1. -/
theorem parseScan_example_unit :
    parseScan [0b00000001, 0b00000011, 0b00000000, 0b00000100, 0b00000000] =
      Except.ok { start := ['1'], quality := 0, angle := 1 / 64, distance := 1 } := by
  decide!

/-- C12: a buffer of ten bytes that starts with `A5 5A 03 00 00 00 06` makes the
parser emit one `'health'` event with `status` byte 7 and `errorCode`
`byte 8 + 256 * byte 9`, a value up to 65535, and the recogniser accepts a
buffer only if it has ten bytes and that preamble. -/
theorem parser_health (r buffer : Buffer) (hlen : buffer.length = 10)
    (hpre : (buffer.take 7).map (fun b => b.val) = [0xA5, 0x5A, 0x03, 0x00, 0x00, 0x00, 0x06]) :
    parser r buffer =
        ([⟨Receiver.emitter,
            Event.health (some (byteAt buffer 7))
              (some (byteAt buffer 8 + 256 * byteAt buffer 9))⟩], r) ∧
      elem buffer 7 = some (byteAt buffer 7) ∧ elem buffer 8 = some (byteAt buffer 8) ∧
      elem buffer 9 = some (byteAt buffer 9) ∧
      byteAt buffer 8 + 256 * byteAt buffer 9 ≤ 65535 ∧
      (∀ other : Buffer, isHealthCheckResponse other = true →
        other.length = 10 ∧
          (other.take 7).map (fun b => b.val) = [0xA5, 0x5A, 0x03, 0x00, 0x00, 0x00, 0x06]) := by
  have helem : ∀ i, i < 10 → elem buffer i = some (byteAt buffer i) := by
    intro i hi
    unfold elem byteAt
    have hlt : i < buffer.length := by omega
    rw [List.get?_eq_get hlt]
    rfl
  refine ⟨parser_health_branch r buffer ((isHealthCheckResponse_iff buffer).mpr ⟨hlen, hpre⟩),
    helem 7 (by decide), helem 8 (by decide), helem 9 (by decide), ?_,
    fun other h => (isHealthCheckResponse_iff other).mp h⟩
  have h8 := byteAt_lt buffer 8
  have h9 := byteAt_lt buffer 9
  omega

/-- C12 on the buffer `A5 5A 03 00 00 00 06 00 00 00`: status 0 and error code 0. -/
theorem parser_health_witness :
    parser [] [0xA5, 0x5A, 0x03, 0x00, 0x00, 0x00, 0x06, 0x00, 0x00, 0x00] =
      ([⟨Receiver.emitter, Event.health (some 0) (some 0)⟩], []) :=
  (parser_health [] [0xA5, 0x5A, 0x03, 0x00, 0x00, 0x00, 0x06, 0x00, 0x00, 0x00]
    (by decide) (by decide)).1

/-- An index below the length holds a byte, the one `byteAt` reads. -/
theorem elem_eq_byteAt (buffer : Buffer) (i : Nat) (hi : i < buffer.length) :
    elem buffer i = some (byteAt buffer i) := by
  unfold elem byteAt
  rw [List.get?_eq_get hi]
  rfl

theorem isHealthCheckResponse_length (buffer : Buffer) (h : isHealthCheckResponse buffer = true) :
    buffer.length = 10 :=
  ((isHealthCheckResponse_iff buffer).mp h).1

theorem isInfoCheckResponse_length (buffer : Buffer) (h : isInfoCheckResponse buffer = true) :
    buffer.length = 27 :=
  ((isInfoCheckResponse_iff buffer).mp h).1

theorem isScanStart_length (buffer : Buffer) (h : isScanStart buffer = true) :
    buffer.length = 7 := by
  have := congrArg List.length ((isScanStart_iff buffer).mp h)
  simpa using this

theorem isBootUpMessage_length (buffer : Buffer) (h : isBootUpMessage buffer = true) :
    buffer.length = 56 :=
  ((isBootUpMessage_iff buffer).mp h).1

/-- A recogniser rejects a buffer of another length than its own. -/
theorem recognisers_false_of_length (buffer : Buffer) :
    (buffer.length ≠ 10 → isHealthCheckResponse buffer = false) ∧
      (buffer.length ≠ 27 → isInfoCheckResponse buffer = false) ∧
      (buffer.length ≠ 7 → isScanStart buffer = false) ∧
      (buffer.length ≠ 56 → isBootUpMessage buffer = false) := by
  refine ⟨fun h => ?_, fun h => ?_, fun h => ?_, fun h => ?_⟩
  · exact Bool.eq_false_iff.mpr (fun ht => h (isHealthCheckResponse_length buffer ht))
  · exact Bool.eq_false_iff.mpr (fun ht => h (isInfoCheckResponse_length buffer ht))
  · exact Bool.eq_false_iff.mpr (fun ht => h (isScanStart_length buffer ht))
  · exact Bool.eq_false_iff.mpr (fun ht => h (isBootUpMessage_length buffer ht))

/-- The info branch of the parser. -/
theorem parser_info_branch (r buffer : Buffer) (h : isInfoCheckResponse buffer = true) :
    parser r buffer = ([⟨Receiver.emitter, Event.info (parseInfo buffer)⟩], r) := by
  have hl := isInfoCheckResponse_length buffer h
  have h1 := (recognisers_false_of_length buffer).1 (by omega)
  unfold parser
  simp [h1, h]

/-- The scan-start branch of the parser. -/
theorem parser_scanStart_branch (r buffer : Buffer) (h : isScanStart buffer = true) :
    parser r buffer = ([⟨Receiver.emitter, Event.scanStart⟩], r) := by
  have hl := isScanStart_length buffer h
  have h1 := (recognisers_false_of_length buffer).1 (by omega)
  have h2 := (recognisers_false_of_length buffer).2.1 (by omega)
  unfold parser
  simp [h1, h2, h]

/-- The boot branch of the parser. -/
theorem parser_boot_branch (r buffer : Buffer) (h : isBootUpMessage buffer = true) :
    parser r buffer = ([⟨Receiver.thisArg, Event.boot buffer⟩], r) := by
  have hl := isBootUpMessage_length buffer h
  have h1 := (recognisers_false_of_length buffer).1 (by omega)
  have h2 := (recognisers_false_of_length buffer).2.1 (by omega)
  have h3 := (recognisers_false_of_length buffer).2.2.1 (by omega)
  unfold parser
  simp [h1, h2, h3, h]

/-- The last branch of the parser: a buffer no recogniser accepts and whose
length is not 256 is dropped. -/
theorem parser_unknown_branch (r buffer : Buffer) (h1 : isHealthCheckResponse buffer = false)
    (h2 : isInfoCheckResponse buffer = false) (h3 : isScanStart buffer = false)
    (h4 : isBootUpMessage buffer = false) (hlen : buffer.length ≠ 256) :
    parser r buffer = ([], r) := by
  unfold parser
  simp [h1, h2, h3, h4, hlen]

/-- C13: the info recogniser accepts a buffer exactly when it has 27 bytes and
starts with `A5 5A 14 00 00 00 04`; for such a buffer the parser emits one
`'info'` event whose object has `model` byte 7, `firmware_minor` byte 8,
`firmware_major` byte 9 and `hardware` byte 10. -/
theorem parser_info (r buffer : Buffer) :
    (isInfoCheckResponse buffer = true ↔
      buffer.length = 27 ∧
        (buffer.take 7).map (fun b => b.val) = [0xA5, 0x5A, 0x14, 0x00, 0x00, 0x00, 0x04]) ∧
    (isInfoCheckResponse buffer = true →
      parser r buffer = ([⟨Receiver.emitter, Event.info (parseInfo buffer)⟩], r) ∧
        (parseInfo buffer).model = some (byteAt buffer 7) ∧
        (parseInfo buffer).firmware_minor = some (byteAt buffer 8) ∧
        (parseInfo buffer).firmware_major = some (byteAt buffer 9) ∧
        (parseInfo buffer).hardware = some (byteAt buffer 10)) := by
  refine ⟨isInfoCheckResponse_iff buffer, fun h => ?_⟩
  have hl := isInfoCheckResponse_length buffer h
  exact ⟨parser_info_branch r buffer h, elem_eq_byteAt buffer 7 (by omega),
    elem_eq_byteAt buffer 8 (by omega), elem_eq_byteAt buffer 9 (by omega),
    elem_eq_byteAt buffer 10 (by omega)⟩

/-- C13 on the info buffer with model 1, firmware 2 and 3, hardware 4 and a
serial number of sixteen bytes `0xAB`. -/
theorem parser_info_witness :
    parser [] ([0xA5, 0x5A, 0x14, 0x00, 0x00, 0x00, 0x04, 1, 2, 3, 4] ++ List.replicate 16 0xAB) =
        ([⟨Receiver.emitter, Event.info
          (parseInfo ([0xA5, 0x5A, 0x14, 0x00, 0x00, 0x00, 0x04, 1, 2, 3, 4] ++
            List.replicate 16 0xAB))⟩], []) ∧
      (parseInfo ([0xA5, 0x5A, 0x14, 0x00, 0x00, 0x00, 0x04, 1, 2, 3, 4] ++
          List.replicate 16 0xAB)).model =
        some (byteAt ([0xA5, 0x5A, 0x14, 0x00, 0x00, 0x00, 0x04, 1, 2, 3, 4] ++
          List.replicate 16 0xAB) 7) ∧
      (parseInfo ([0xA5, 0x5A, 0x14, 0x00, 0x00, 0x00, 0x04, 1, 2, 3, 4] ++
          List.replicate 16 0xAB)).firmware_minor =
        some (byteAt ([0xA5, 0x5A, 0x14, 0x00, 0x00, 0x00, 0x04, 1, 2, 3, 4] ++
          List.replicate 16 0xAB) 8) ∧
      (parseInfo ([0xA5, 0x5A, 0x14, 0x00, 0x00, 0x00, 0x04, 1, 2, 3, 4] ++
          List.replicate 16 0xAB)).firmware_major =
        some (byteAt ([0xA5, 0x5A, 0x14, 0x00, 0x00, 0x00, 0x04, 1, 2, 3, 4] ++
          List.replicate 16 0xAB) 9) ∧
      (parseInfo ([0xA5, 0x5A, 0x14, 0x00, 0x00, 0x00, 0x04, 1, 2, 3, 4] ++
          List.replicate 16 0xAB)).hardware =
        some (byteAt ([0xA5, 0x5A, 0x14, 0x00, 0x00, 0x00, 0x04, 1, 2, 3, 4] ++
          List.replicate 16 0xAB) 10) :=
  (parser_info [] ([0xA5, 0x5A, 0x14, 0x00, 0x00, 0x00, 0x04, 1, 2, 3, 4] ++
    List.replicate 16 0xAB)).2 (by decide)

/-- C14 at failing inputs: the info buffer whose serial bytes are all `00` gets
a serial number of 16 characters, not 32, and the info buffers whose serial
bytes start `01 10` and `11 00` (zero afterwards) get the same serial number. -/
theorem parseInfo_serial_unpadded :
    isInfoCheckResponse
        ([0xA5, 0x5A, 0x14, 0x00, 0x00, 0x00, 0x04, 0, 0, 0, 0] ++ List.replicate 16 0x00) = true ∧
      (parseInfo ([0xA5, 0x5A, 0x14, 0x00, 0x00, 0x00, 0x04, 0, 0, 0, 0] ++
          List.replicate 16 0x00)).serial_number = List.replicate 16 '0' ∧
      isInfoCheckResponse
        ([0xA5, 0x5A, 0x14, 0x00, 0x00, 0x00, 0x04, 0, 0, 0, 0, 0x01, 0x10] ++
          List.replicate 14 0x00) = true ∧
      isInfoCheckResponse
        ([0xA5, 0x5A, 0x14, 0x00, 0x00, 0x00, 0x04, 0, 0, 0, 0, 0x11, 0x00] ++
          List.replicate 14 0x00) = true ∧
      slice ([0xA5, 0x5A, 0x14, 0x00, 0x00, 0x00, 0x04, 0, 0, 0, 0, 0x01, 0x10] ++
          List.replicate 14 0x00) 11 27 ≠
        slice ([0xA5, 0x5A, 0x14, 0x00, 0x00, 0x00, 0x04, 0, 0, 0, 0, 0x11, 0x00] ++
          List.replicate 14 0x00) 11 27 ∧
      (parseInfo ([0xA5, 0x5A, 0x14, 0x00, 0x00, 0x00, 0x04, 0, 0, 0, 0, 0x01, 0x10] ++
          List.replicate 14 0x00)).serial_number =
        (parseInfo ([0xA5, 0x5A, 0x14, 0x00, 0x00, 0x00, 0x04, 0, 0, 0, 0, 0x11, 0x00] ++
          List.replicate 14 0x00)).serial_number := by
  decide

/-- C15: the boot recogniser accepts a buffer exactly when it has 56 bytes and
starts with `52 50 20 4C 49 44 41 52`, whatever the other 48 bytes; the parser
then calls `emit('boot', …)` once, on its `this`, and it emits no `'boot'`
event for any other buffer. -/
theorem parser_boot (r buffer : Buffer) :
    (isBootUpMessage buffer = true ↔
      buffer.length = 56 ∧
        (buffer.take 8).map (fun b => b.val) =
          [0x52, 0x50, 0x20, 0x4C, 0x49, 0x44, 0x41, 0x52]) ∧
    (isBootUpMessage buffer = true →
      parser r buffer = ([⟨Receiver.thisArg, Event.boot buffer⟩], r)) ∧
    (isBootUpMessage buffer = false →
      ∀ e ∈ (parser r buffer).1, ∀ message, e.event ≠ Event.boot message) := by
  refine ⟨isBootUpMessage_iff buffer, parser_boot_branch r buffer, fun h => ?_⟩
  have key : ∀ (offsets : List Nat) (emitted : List Emission) (data : Buffer),
      (∀ e ∈ emitted, ∀ message, e.event ≠ Event.boot message) →
      ∀ e ∈ (scanLoop data offsets emitted).1, ∀ message, e.event ≠ Event.boot message := by
    intro offsets
    induction offsets with
    | nil => intro emitted data hem; exact hem
    | cons o rest ih =>
      intro emitted data hem
      unfold scanLoop
      cases hp : parseScan (slice data o (o + 5)) with
      | error err => exact hem
      | ok s =>
        apply ih
        intro e he message
        rcases List.mem_append.mp he with he | he
        · exact hem e he message
        · rw [List.mem_singleton.mp he]
          simp
  unfold parser
  split_ifs with h1 h2 h3 h4 h5
  · simp
  · simp
  · simp
  · exact absurd h4 (by simp [h])
  · have hk := key (loopOffsets ((r ++ buffer).length - (r ++ buffer).length % 5)) []
      (r ++ buffer) (by simp)
    simp only
    cases hs : scanLoop (r ++ buffer)
        (loopOffsets ((r ++ buffer).length - (r ++ buffer).length % 5)) [] with
    | mk emitted res =>
      rw [hs] at hk
      cases res with
      | none => exact hk
      | some err =>
        intro e he message
        rcases List.mem_append.mp he with he | he
        · exact hk e he message
        · rw [List.mem_singleton.mp he]
          simp
  · simp

/-- C15 on the boot buffer `RP LIDAR` followed by 48 zero bytes. -/
theorem parser_boot_witness :
    parser [] ([0x52, 0x50, 0x20, 0x4C, 0x49, 0x44, 0x41, 0x52] ++ List.replicate 48 0) =
      ([⟨Receiver.thisArg,
        Event.boot ([0x52, 0x50, 0x20, 0x4C, 0x49, 0x44, 0x41, 0x52] ++ List.replicate 48 0)⟩],
        []) :=
  (parser_boot [] ([0x52, 0x50, 0x20, 0x4C, 0x49, 0x44, 0x41, 0x52] ++
    List.replicate 48 0)).2.1 (by decide)

/-- C16, as stated, fails: the buffer of 56 bytes that starts with the seven
bytes of `RPLIDAR` and continues with zero bytes is not recognised as a boot
message, and the parser emits nothing for it. -/
theorem boot_without_space_counterexample :
    ([0x52, 0x50, 0x4C, 0x49, 0x44, 0x41, 0x52] ++ List.replicate 49 (0 : Byte)).length = 56 ∧
      isBootUpMessage ([0x52, 0x50, 0x4C, 0x49, 0x44, 0x41, 0x52] ++ List.replicate 49 0) =
        false ∧
      parser [] ([0x52, 0x50, 0x4C, 0x49, 0x44, 0x41, 0x52] ++ List.replicate 49 0) =
        ([], []) := by
  decide

/-- C16, amended: a buffer of 56 bytes that begins with the eight bytes
`52 50 20 4C 49 44 41 52` (`RP LIDAR`, with the space) is recognised as a boot
message and gives one `'boot'` emission; a buffer of 56 bytes that begins with
the seven bytes `52 50 4C 49 44 41 52` (`RPLIDAR`) is not recognised and gives
no emission. -/
theorem boot_with_space (r buffer : Buffer) (hlen : buffer.length = 56) :
    ((buffer.take 8).map (fun b => b.val) = [0x52, 0x50, 0x20, 0x4C, 0x49, 0x44, 0x41, 0x52] →
      isBootUpMessage buffer = true ∧
        parser r buffer = ([⟨Receiver.thisArg, Event.boot buffer⟩], r)) ∧
    ((buffer.take 7).map (fun b => b.val) = [0x52, 0x50, 0x4C, 0x49, 0x44, 0x41, 0x52] →
      isBootUpMessage buffer = false ∧ parser r buffer = ([], r)) := by
  constructor
  · intro hpre
    have h := (isBootUpMessage_iff buffer).mpr ⟨hlen, hpre⟩
    exact ⟨h, parser_boot_branch r buffer h⟩
  · intro hpre
    have hb : isBootUpMessage buffer = false := by
      apply Bool.eq_false_iff.mpr
      intro ht
      have h8 := ((isBootUpMessage_iff buffer).mp ht).2
      have h7 : ((buffer.take 8).map (fun b => b.val)).take 7 =
          (buffer.take 7).map (fun b => b.val) := by
        rw [← List.map_take, List.take_take]
        rfl
      rw [h8, hpre] at h7
      exact absurd h7 (by decide)
    have hr := recognisers_false_of_length buffer
    exact ⟨hb, parser_unknown_branch r buffer (hr.1 (by omega)) (hr.2.1 (by omega))
      (hr.2.2.1 (by omega)) hb (by omega)⟩

/-- C16, amended, on the two buffers `RP LIDAR` and `RPLIDAR` padded with zero
bytes to 56 bytes. -/
theorem boot_with_space_witness :
    (isBootUpMessage ([0x52, 0x50, 0x20, 0x4C, 0x49, 0x44, 0x41, 0x52] ++ List.replicate 48 0) =
        true ∧
      parser [] ([0x52, 0x50, 0x20, 0x4C, 0x49, 0x44, 0x41, 0x52] ++ List.replicate 48 0) =
        ([⟨Receiver.thisArg,
          Event.boot ([0x52, 0x50, 0x20, 0x4C, 0x49, 0x44, 0x41, 0x52] ++
            List.replicate 48 0)⟩], [])) ∧
    (isBootUpMessage ([0x52, 0x50, 0x4C, 0x49, 0x44, 0x41, 0x52] ++ List.replicate 49 0) =
        false ∧
      parser [] ([0x52, 0x50, 0x4C, 0x49, 0x44, 0x41, 0x52] ++ List.replicate 49 0) =
        ([], [])) :=
  ⟨(boot_with_space [] ([0x52, 0x50, 0x20, 0x4C, 0x49, 0x44, 0x41, 0x52] ++
      List.replicate 48 0) (by decide)).1 (by decide),
    (boot_with_space [] ([0x52, 0x50, 0x4C, 0x49, 0x44, 0x41, 0x52] ++
      List.replicate 49 0) (by decide)).2 (by decide)⟩

/-- C17: at most one of the four recognisers accepts a buffer and none accepts
a buffer of 256 bytes; the scan-start recogniser accepts exactly the seven
bytes `A5 5A 05 00 00 40 81`; a buffer accepted by a recogniser gives exactly
one emission, of the kind of that recogniser, and a buffer accepted by none
and of a length other than 256 gives no emission; in all these cases the
residue is unchanged. -/
theorem parser_one_notification (r buffer : Buffer) :
    ((isHealthCheckResponse buffer).toNat + (isInfoCheckResponse buffer).toNat +
        (isScanStart buffer).toNat + (isBootUpMessage buffer).toNat ≤ 1) ∧
    (buffer.length = 256 →
      isHealthCheckResponse buffer = false ∧ isInfoCheckResponse buffer = false ∧
        isScanStart buffer = false ∧ isBootUpMessage buffer = false) ∧
    (isScanStart buffer = true ↔
      buffer.map (fun b => b.val) = [0xA5, 0x5A, 0x05, 0x00, 0x00, 0x40, 0x81]) ∧
    (isHealthCheckResponse buffer = true →
      ∃ status errorCode,
        parser r buffer = ([⟨Receiver.emitter, Event.health status errorCode⟩], r)) ∧
    (isInfoCheckResponse buffer = true →
      parser r buffer = ([⟨Receiver.emitter, Event.info (parseInfo buffer)⟩], r)) ∧
    (isScanStart buffer = true →
      parser r buffer = ([⟨Receiver.emitter, Event.scanStart⟩], r)) ∧
    (isBootUpMessage buffer = true →
      parser r buffer = ([⟨Receiver.thisArg, Event.boot buffer⟩], r)) ∧
    (isHealthCheckResponse buffer = false → isInfoCheckResponse buffer = false →
      isScanStart buffer = false → isBootUpMessage buffer = false → buffer.length ≠ 256 →
      parser r buffer = ([], r)) := by
  have hr := recognisers_false_of_length buffer
  refine ⟨?_, fun h => ⟨hr.1 (by omega), hr.2.1 (by omega), hr.2.2.1 (by omega),
    hr.2.2.2 (by omega)⟩, isScanStart_iff buffer,
    fun h => ⟨_, _, parser_health_branch r buffer h⟩, parser_info_branch r buffer,
    parser_scanStart_branch r buffer, parser_boot_branch r buffer,
    parser_unknown_branch r buffer⟩
  by_cases h10 : buffer.length = 10
  · rw [hr.2.1 (by omega), hr.2.2.1 (by omega), hr.2.2.2 (by omega)]
    cases isHealthCheckResponse buffer <;> decide
  · rw [hr.1 h10]
    by_cases h27 : buffer.length = 27
    · rw [hr.2.2.1 (by omega), hr.2.2.2 (by omega)]
      cases isInfoCheckResponse buffer <;> decide
    · rw [hr.2.1 h27]
      by_cases h7 : buffer.length = 7
      · rw [hr.2.2.2 (by omega)]
        cases isScanStart buffer <;> decide
      · rw [hr.2.2.1 h7]
        cases isBootUpMessage buffer <;> decide

/-- C17 on the scan-start acknowledgement, on a health response and on a
buffer of three bytes that no recogniser accepts. -/
theorem parser_one_notification_witness :
    parser [7] [0xA5, 0x5A, 0x05, 0x00, 0x00, 0x40, 0x81] =
        ([⟨Receiver.emitter, Event.scanStart⟩], [7]) ∧
      (∃ status errorCode,
        parser [7] [0xA5, 0x5A, 0x03, 0x00, 0x00, 0x00, 0x06, 1, 2, 3] =
          ([⟨Receiver.emitter, Event.health status errorCode⟩], [7])) ∧
      parser [7] [1, 2, 3] = ([], [7]) :=
  ⟨(parser_one_notification [7] [0xA5, 0x5A, 0x05, 0x00, 0x00, 0x40, 0x81]).2.2.2.2.2.1
      (by decide),
    (parser_one_notification [7] [0xA5, 0x5A, 0x03, 0x00, 0x00, 0x00, 0x06, 1, 2, 3]).2.2.2.1
      (by decide),
    (parser_one_notification [7] [1, 2, 3]).2.2.2.2.2.2.2 (by decide) (by decide) (by decide)
      (by decide) (by decide)⟩

/-! ## The driver and the residue -/

/-- The loop only emits on the `emitter`. -/
theorem scanLoop_receiver (data : Buffer) (offsets : List Nat) (emitted : List Emission)
    (h : ∀ e ∈ emitted, e.receiver = Receiver.emitter) :
    ∀ e ∈ (scanLoop data offsets emitted).1, e.receiver = Receiver.emitter := by
  induction offsets generalizing emitted with
  | nil => exact h
  | cons o rest ih =>
    unfold scanLoop
    cases hp : parseScan (slice data o (o + 5)) with
    | error err => exact h
    | ok s =>
      apply ih
      intro e he
      rcases List.mem_append.mp he with he | he
      · exact h e he
      · rw [List.mem_singleton.mp he]

/-- A chunk of 256 bytes makes the parser emit on the `emitter` only. -/
theorem parser_chunk_receiver (r c : Buffer) (hc : c.length = 256) :
    ∀ e ∈ (parser r c).1, e.receiver = Receiver.emitter := by
  have hk := scanLoop_receiver (r ++ c)
    (loopOffsets ((r ++ c).length - (r ++ c).length % 5)) [] (by simp)
  rw [parser_chunk r c hc]
  cases hs : scanLoop (r ++ c) (loopOffsets ((r ++ c).length - (r ++ c).length % 5)) [] with
  | mk emitted res =>
    rw [hs] at hk
    cases res with
    | none => exact hk
    | some err =>
      intro e he
      rcases List.mem_append.mp he with he | he
      · exact hk e he
      · rw [List.mem_singleton.mp he]

/-- Outside the state `SCANNING` the port listeners publish no sample. -/
theorem publishedSamples_not_scanning (state : DeviceState)
    (hs : state ≠ DeviceState.SCANNING) (l : List Emission) :
    publishedSamples ((l.map (portListeners state)).flatten) = [] := by
  induction l with
  | nil => rfl
  | cons e rest ih =>
    obtain ⟨rcv, ev⟩ := e
    cases rcv <;> cases ev <;>
      simp [portListeners, hs, publishedSamples, ih]

/-- The port listeners publish every error the parser emits on the `emitter`. -/
theorem publishedErrors_forwarded (state : DeviceState) (l : List Emission)
    (h : ∀ e ∈ l, e.receiver = Receiver.emitter) :
    publishedErrors ((l.map (portListeners state)).flatten) = errorsOf l := by
  induction l with
  | nil => rfl
  | cons e rest ih =>
    have hrest := ih (fun e' he' => h e' (List.mem_cons_of_mem e he'))
    have he := h e (List.mem_cons_self e rest)
    obtain ⟨rcv, ev⟩ := e
    simp only at he
    subst he
    cases ev with
    | data s =>
      simp only [List.map_cons, List.flatten_cons, portListeners, errorsOf]
      split_ifs <;> simpa [publishedErrors] using hrest
    | _ => simp [portListeners, publishedErrors, errorsOf, hrest]

/-- C18 at failing inputs: in state `IDLE` the chunk of 256 bytes `1` gets no
`'data'` event published, yet the parser has decoded it and the residue goes
from empty to `[1]`; in state `SCANNING` the next chunk, 51 valid units
`[2, 1, 1, 0, 0]` and the byte `2`, then gives no sample and the check-bit
error with that residue, against 51 samples and no error from the empty
residue; and in state `IDLE` the chunk of 256 zero bytes has its error
published. -/
theorem garbage_not_discarded :
    publishedSamples (receive DeviceState.IDLE [] (List.replicate 256 1)).1 = [] ∧
      (receive DeviceState.IDLE [] (List.replicate 256 1)).2 = [1] ∧
      receive DeviceState.SCANNING [1] ((List.replicate 51 [2, 1, 1, 0, 0]).flatten ++ [2]) =
        ([Event.error ScanError.checkBit], [1]) ∧
      publishedSamples (receive DeviceState.SCANNING []
          ((List.replicate 51 [2, 1, 1, 0, 0]).flatten ++ [2])).1 =
        List.replicate 51 ⟨['0'], 0, 2, 0⟩ ∧
      publishedErrors (receive DeviceState.SCANNING []
          ((List.replicate 51 [2, 1, 1, 0, 0]).flatten ++ [2])).1 = [] ∧
      receive DeviceState.IDLE [] (List.replicate 256 0) =
        ([Event.error ScanError.startFlags], []) := by
  decide!

/-- C19: with the motor off, `scan()` first calls `set({dtr: false})` and sets
the motor state to `ON`, leaving the device state as it was; its continuation
then sets `PROCESSING` and writes the frame `A5 20`; the device state becomes
`SCANNING` when the `'scan-start'` event comes after that write, and such an
event before the write changes nothing when no earlier listener is pending.
With the motor on, `scan()` makes no call before the write of the frame. -/
theorem scan_order (d : Driver) :
    (d.motorState = MotorState.OFF →
      (scanCall d).calls = d.calls ++ [PortCall.set false] ∧
        (scanCall d).motorState = MotorState.ON ∧
        (scanCall d).state = d.state ∧
        (d.scanStartListeners = 0 → onScanStart (scanCall d) = scanCall d) ∧
        (scanThen (scanCall d)).calls =
          d.calls ++ [PortCall.set false, PortCall.write [0xA5, 0x20]] ∧
        (scanThen (scanCall d)).motorState = MotorState.ON ∧
        (scanThen (scanCall d)).state = DeviceState.PROCESSING ∧
        (onScanStart (scanThen (scanCall d))).state = DeviceState.SCANNING ∧
        (onScanStart (scanThen (scanCall d))).calls =
          d.calls ++ [PortCall.set false, PortCall.write [0xA5, 0x20]]) ∧
    (d.motorState = MotorState.ON →
      scanCall d = d ∧
        (scanThen (scanCall d)).calls = d.calls ++ [PortCall.write [0xA5, 0x20]] ∧
        (scanThen (scanCall d)).motorState = MotorState.ON ∧
        (scanThen (scanCall d)).state = DeviceState.PROCESSING ∧
        (onScanStart (scanThen (scanCall d))).state = DeviceState.SCANNING ∧
        (onScanStart (scanThen (scanCall d))).calls =
          d.calls ++ [PortCall.write [0xA5, 0x20]]) := by
  constructor
  · intro hoff
    simp [scanCall, startMotor, scanThen, onScanStart, hoff, COMMANDS_SCAN, START_FLAG]
    intro h0
    simp [h0]
  · intro hon
    simp [scanCall, startMotor, scanThen, onScanStart, hon, COMMANDS_SCAN, START_FLAG]

/-- C19 on an idle driver with the motor off and on one with the motor on. -/
theorem scan_order_witness :
    (scanThen (scanCall ⟨DeviceState.IDLE, MotorState.OFF, WaitingFor.no, 0, []⟩)).calls =
        [] ++ [PortCall.set false, PortCall.write [0xA5, 0x20]] ∧
      (scanThen (scanCall ⟨DeviceState.IDLE, MotorState.ON, WaitingFor.no, 0, []⟩)).calls =
        [] ++ [PortCall.write [0xA5, 0x20]] :=
  ⟨((scan_order ⟨DeviceState.IDLE, MotorState.OFF, WaitingFor.no, 0, []⟩).1 rfl).2.2.2.2.1,
    ((scan_order ⟨DeviceState.IDLE, MotorState.ON, WaitingFor.no, 0, []⟩).2 rfl).2.1⟩

/-- The residue stays below five bytes over one delivery, whatever the buffer. -/
theorem parser_residue_le (r buffer : Buffer) (hr : r.length ≤ 4) :
    (parser r buffer).2.length ≤ 4 := by
  unfold parser
  split_ifs with h1 h2 h3 h4 h5
  · exact hr
  · exact hr
  · exact hr
  · exact hr
  · simp only
    cases hs : scanLoop (r ++ buffer)
        (loopOffsets ((r ++ buffer).length - (r ++ buffer).length % 5)) [] with
    | mk emitted res =>
      cases res with
      | some err => exact hr
      | none =>
        simp only [slice, List.length_drop, List.length_take]
        omega
  · exact hr

/-- The residue stays below five bytes over any sequence of deliveries. -/
theorem deliverAll_residue_le (buffers : List Buffer) (r : Buffer) (hr : r.length ≤ 4) :
    (deliverAll r buffers).2.length ≤ 4 := by
  induction buffers generalizing r with
  | nil => exact hr
  | cons b rest ih => exact ih (parser r b).2 (parser_residue_le r b hr)

/-- When the first `n` units all decode, the `i`-th sample among their
emissions is the result of `parseScan` on unit `i`. -/
theorem unitEmissions_get (data : Buffer) (n i : Nat) (hi : i < n)
    (h : ∀ j < n, ∃ s, parseScan (unitAt data j) = Except.ok s) :
    ∃ s, parseScan (unitAt data i) = Except.ok s ∧
      (samplesOf (unitEmissions data n)).get? i = some s := by
  have key : ∀ l : List Nat, (∀ j ∈ l, ∃ s, parseScan (unitAt data j) = Except.ok s) →
      (l.filterMap (fun j => (parseScan (unitAt data j)).toOption)).map some =
        l.map (fun j => (parseScan (unitAt data j)).toOption) := by
    intro l
    induction l with
    | nil => intro _; rfl
    | cons j rest ih =>
      intro hl
      obtain ⟨s, hs⟩ := hl j (List.mem_cons_self j rest)
      have hrest := ih (fun j' hj' => hl j' (List.mem_cons_of_mem j hj'))
      have e2 : (Except.ok s : Except ScanError ScanSample).toOption = some s := rfl
      simp only [List.filterMap_cons, hs, e2, List.map_cons, hrest]
  obtain ⟨s, hs⟩ := h i hi
  refine ⟨s, hs, ?_⟩
  rw [(unitEmissions_samples data n).1]
  have hk := key (List.range n) (fun j hj => h j (List.mem_range.mp hj))
  have hg := congrArg (fun l => l.get? i) hk
  simp only [List.get?_eq_getElem?, List.getElem?_map] at hg
  rw [List.getElem?_range hi] at hg
  rw [List.get?_eq_getElem?]
  have e2 : (Except.ok s : Except ScanError ScanSample).toOption = some s := rfl
  simp only [Option.map_some', hs, e2] at hg
  cases hq : (List.filterMap (fun j => (parseScan (unitAt data j)).toOption)
      (List.range n))[i]? with
  | none => rw [hq] at hg; exact absurd hg (by simp)
  | some q =>
    rw [hq] at hg
    simp only [Option.map_some', Option.some.injEq] at hg
    rw [hg]

/-- C20: for a residue `r` of at most four bytes and a chunk `c` of 256 bytes
such that every unit of `r ++ c` decodes, the parser emits exactly
`(|r| + 256) / 5` samples (51 or 52) and no error, the `i`-th sample being
`parseScan` of bytes `5 i` to `5 i + 4` of `r ++ c`, and the new residue is
the last `(|r| + 256) mod 5` bytes of `r ++ c`; and after any sequence of
buffers delivered from the empty residue the residue has at most four bytes. -/
theorem parser_decode_step (r c : Buffer) (hr : r.length ≤ 4) (hc : c.length = 256)
    (hok : ∀ j < (r ++ c).length / 5, ∃ s, parseScan (unitAt (r ++ c) j) = Except.ok s) :
    parser r c =
        (unitEmissions (r ++ c) ((r.length + 256) / 5),
          (r ++ c).drop ((r.length + 256) - (r.length + 256) % 5)) ∧
      (samplesOf (parser r c).1).length = (r.length + 256) / 5 ∧
      ((r.length + 256) / 5 = 51 ∨ (r.length + 256) / 5 = 52) ∧
      errorsOf (parser r c).1 = [] ∧
      (∀ i < (r.length + 256) / 5,
        ∃ s, parseScan (slice (r ++ c) (5 * i) (5 * i + 5)) = Except.ok s ∧
          (samplesOf (parser r c).1).get? i = some s) ∧
      (parser r c).2.length = (r.length + 256) % 5 ∧
      (∀ buffers : List Buffer, (deliverAll [] buffers).2.length ≤ 4) := by
  have hlen : (r ++ c).length = r.length + 256 := by rw [List.length_append, hc]
  have hp : parser r c =
      (unitEmissions (r ++ c) ((r.length + 256) / 5),
        (r ++ c).drop ((r.length + 256) - (r.length + 256) % 5)) := by
    rw [parser_chunk_ok r c hc hok, hlen]
    congr 1
    unfold slice
    rw [← hlen, List.take_length]
  rw [hlen] at hok
  have hu := unitEmissions_samples (r ++ c) ((r.length + 256) / 5)
  have hul := unitEmissions_length (r ++ c) ((r.length + 256) / 5) hok
  refine ⟨hp, ?_, by omega, ?_, ?_, ?_, fun buffers => deliverAll_residue_le buffers [] (by simp)⟩
  · rw [hp]
    have hm : (samplesOf (unitEmissions (r ++ c) ((r.length + 256) / 5))).map
        (fun s => (⟨Receiver.emitter, Event.data s⟩ : Emission)) =
        unitEmissions (r ++ c) ((r.length + 256) / 5) := by
      unfold unitEmissions
      induction List.range ((r.length + 256) / 5) with
      | nil => rfl
      | cons j rest ih =>
        cases hj : parseScan (unitAt (r ++ c) j) with
        | error e =>
          have e1 : dataEmission (Except.error e) = none := rfl
          simp only [List.filterMap_cons, hj, e1]
          exact ih
        | ok s =>
          have e1 : dataEmission (Except.ok s) = some ⟨Receiver.emitter, Event.data s⟩ := rfl
          simp only [List.filterMap_cons, hj, e1, samplesOf, List.map_cons, ih]
    have := congrArg List.length hm
    rw [List.length_map, hul] at this
    exact this
  · rw [hp]
    exact hu.2
  · intro i hi
    rw [hp]
    exact unitEmissions_get (r ++ c) ((r.length + 256) / 5) i hi hok
  · rw [hp]
    simp only [List.length_drop, hlen]
    omega

set_option maxRecDepth 100000 in
/-- C20 on the empty residue and the chunk of 256 bytes `1`. -/
theorem parser_decode_step_witness :
    parser [] (List.replicate 256 1) =
        (unitEmissions ([] ++ List.replicate 256 1) (((([] : Buffer).length) + 256) / 5),
          ([] ++ List.replicate 256 1).drop
            (((([] : Buffer).length) + 256) - ((([] : Buffer).length) + 256) % 5)) ∧
      (samplesOf (parser [] (List.replicate 256 1)).1).length =
        ((([] : Buffer).length) + 256) / 5 ∧
      (parser [] (List.replicate 256 1)).2.length = ((([] : Buffer).length) + 256) % 5 :=
  have h := parser_decode_step [] (List.replicate 256 1) (by decide)
    (List.length_replicate 256 1)
    (fun j hj => ⟨⟨['1'], 0, 2, 257 / 4⟩, by
      rw [List.nil_append, List.length_replicate] at hj
      have hu : unitAt ([] ++ List.replicate 256 (1 : Byte)) j = [1, 1, 1, 1, 1] := by
        simp only [unitAt, slice, List.nil_append, List.take_replicate, List.drop_replicate]
        have h5 : min (5 * j + 5) 256 - 5 * j = 5 := by omega
        rw [h5]
        rfl
      rw [hu]
      decide!⟩)
  ⟨h.1, h.2.1, h.2.2.2.2.2.1⟩

/-! ## Chunked decoding against the whole stream -/

/-- A unit that lies inside a front part of a buffer is a unit of that part. -/
theorem unitAt_append_left (x y : Buffer) (j : Nat) (h : 5 * j + 5 ≤ x.length) :
    unitAt (x ++ y) j = unitAt x j := by
  unfold unitAt slice
  rw [List.take_append_of_le_length h]

/-- Behind a front part of `5 * m` bytes the units are shifted by `m`. -/
theorem unitAt_append_right (a b : Buffer) (m j : Nat) (h : a.length = 5 * m) :
    unitAt (a ++ b) (m + j) = unitAt b j := by
  unfold unitAt slice
  have h1 : 5 * (m + j) + 5 = a.length + (5 * j + 5) := by omega
  have h2 : 5 * (m + j) = a.length + 5 * j := by omega
  rw [h1, h2, List.take_append, List.drop_append]

/-- The emissions of the first `k1 + k2` units, split after `k1` units. -/
theorem unitEmissions_add (data : Buffer) (k1 k2 : Nat) :
    unitEmissions data (k1 + k2) =
      unitEmissions data k1 ++
        (List.range k2).filterMap
          (fun j => dataEmission (parseScan (unitAt data (k1 + j)))) := by
  unfold unitEmissions
  rw [List.range_add, List.filterMap_append, List.filterMap_map]
  rfl

/-- The emissions of the first `n` units depend on those units only. -/
theorem unitEmissions_congr (d1 d2 : Buffer) (n : Nat)
    (h : ∀ j < n, unitAt d1 j = unitAt d2 j) :
    unitEmissions d1 n = unitEmissions d2 n := by
  unfold unitEmissions
  apply List.filterMap_congr
  intro j hj
  rw [h j (List.mem_range.mp hj)]

/-- Deliveries of chunks of 256 bytes from a residue `r` of at most four bytes,
when every unit of `r` followed by the chunks decodes: the emissions are those
of the units of the whole, and the residue is its incomplete last unit. -/
theorem deliverAll_chunks (chunks : List Buffer) (r : Buffer) (hr : r.length ≤ 4)
    (hlen : ∀ c ∈ chunks, c.length = 256)
    (hok : ∀ j < (r ++ chunks.flatten).length / 5,
      ∃ s, parseScan (unitAt (r ++ chunks.flatten) j) = Except.ok s) :
    deliverAll r chunks =
      (unitEmissions (r ++ chunks.flatten) ((r ++ chunks.flatten).length / 5),
        (r ++ chunks.flatten).drop
          ((r ++ chunks.flatten).length - (r ++ chunks.flatten).length % 5)) := by
  induction chunks generalizing r with
  | nil =>
    simp only [deliverAll, List.flatten_nil, List.append_nil]
    have h0 : r.length / 5 = 0 := by omega
    have h1 : r.length - r.length % 5 = 0 := by omega
    rw [h0, h1]
    rfl
  | cons c rest ih =>
    have hc : c.length = 256 := hlen c (List.mem_cons_self c rest)
    have hX : (r ++ c).length = r.length + 256 := by rw [List.length_append, hc]
    have hA : ((r ++ c).take (5 * ((r ++ c).length / 5))).length = 5 * ((r ++ c).length / 5) := by
      rw [List.length_take]
      omega
    have hsub : (r ++ c).length - (r ++ c).length % 5 = 5 * ((r ++ c).length / 5) := by omega
    have hD : r ++ (c :: rest).flatten =
        (r ++ c).take (5 * ((r ++ c).length / 5)) ++
          ((r ++ c).drop (5 * ((r ++ c).length / 5)) ++ rest.flatten) := by
      rw [← List.append_assoc, List.take_append_drop, List.flatten_cons, List.append_assoc]
    have hD2 : r ++ (c :: rest).flatten = (r ++ c) ++ rest.flatten := by
      rw [List.flatten_cons, List.append_assoc]
    have hr2 : ((r ++ c).drop (5 * ((r ++ c).length / 5))).length ≤ 4 := by
      rw [List.length_drop]
      omega
    have hDlen : (r ++ (c :: rest).flatten).length =
        5 * ((r ++ c).length / 5) +
          ((r ++ c).drop (5 * ((r ++ c).length / 5)) ++ rest.flatten).length := by
      rw [hD, List.length_append, hA]
    have hokX : ∀ j < (r ++ c).length / 5, ∃ s, parseScan (unitAt (r ++ c) j) = Except.ok s := by
      intro j hj
      have hj2 : j < (r ++ (c :: rest).flatten).length / 5 := by
        rw [hD2, List.length_append]
        omega
      have := hok j hj2
      rw [hD2, unitAt_append_left _ _ _ (by omega)] at this
      exact this
    have hok2 : ∀ j < ((r ++ c).drop (5 * ((r ++ c).length / 5)) ++ rest.flatten).length / 5,
        ∃ s, parseScan (unitAt ((r ++ c).drop (5 * ((r ++ c).length / 5)) ++ rest.flatten) j) =
          Except.ok s := by
      intro j hj
      have hj2 : (r ++ c).length / 5 + j < (r ++ (c :: rest).flatten).length / 5 := by
        rw [hDlen]
        omega
      have := hok _ hj2
      rw [hD, unitAt_append_right _ _ _ _ hA] at this
      exact this
    have hp := parser_chunk_ok r c hc hokX
    have hslice : slice (r ++ c) ((r ++ c).length - (r ++ c).length % 5) (r ++ c).length =
        (r ++ c).drop (5 * ((r ++ c).length / 5)) := by
      unfold slice
      rw [List.take_length, hsub]
    rw [hslice] at hp
    have hih := ih ((r ++ c).drop (5 * ((r ++ c).length / 5))) hr2
      (fun c2 h2 => hlen c2 (List.mem_cons_of_mem c h2)) hok2
    have hk : (r ++ (c :: rest).flatten).length / 5 =
        (r ++ c).length / 5 +
          ((r ++ c).drop (5 * ((r ++ c).length / 5)) ++ rest.flatten).length / 5 := by
      rw [hDlen]
      omega
    have hE1 : unitEmissions (r ++ (c :: rest).flatten) ((r ++ c).length / 5) =
        unitEmissions (r ++ c) ((r ++ c).length / 5) := by
      apply unitEmissions_congr
      intro j hj
      rw [hD2, unitAt_append_left _ _ _ (by omega)]
    have hE2 : (List.range
          (((r ++ c).drop (5 * ((r ++ c).length / 5)) ++ rest.flatten).length / 5)).filterMap
        (fun j => dataEmission (parseScan (unitAt (r ++ (c :: rest).flatten)
          ((r ++ c).length / 5 + j)))) =
        unitEmissions ((r ++ c).drop (5 * ((r ++ c).length / 5)) ++ rest.flatten)
          (((r ++ c).drop (5 * ((r ++ c).length / 5)) ++ rest.flatten).length / 5) := by
      unfold unitEmissions
      apply List.filterMap_congr
      intro j _
      rw [hD, unitAt_append_right _ _ _ _ hA]
    have hres : (r ++ (c :: rest).flatten).drop
          ((r ++ (c :: rest).flatten).length - (r ++ (c :: rest).flatten).length % 5) =
        ((r ++ c).drop (5 * ((r ++ c).length / 5)) ++ rest.flatten).drop
          (((r ++ c).drop (5 * ((r ++ c).length / 5)) ++ rest.flatten).length -
            ((r ++ c).drop (5 * ((r ++ c).length / 5)) ++ rest.flatten).length % 5) := by
      have hn : (r ++ (c :: rest).flatten).length - (r ++ (c :: rest).flatten).length % 5 =
          ((r ++ c).take (5 * ((r ++ c).length / 5))).length +
            (((r ++ c).drop (5 * ((r ++ c).length / 5)) ++ rest.flatten).length -
              ((r ++ c).drop (5 * ((r ++ c).length / 5)) ++ rest.flatten).length % 5) := by
        rw [hA, hDlen]
        omega
      rw [hn]
      conv_lhs => rw [hD]
      rw [List.drop_append]
    show ((parser r c).1 ++ (deliverAll (parser r c).2 rest).1,
      (deliverAll (parser r c).2 rest).2) = _
    rw [hp]
    simp only
    rw [hih, hk, unitEmissions_add, hE1, hE2, hres]

/-- Chunks of 256 bytes concatenate to `256 * n` bytes. -/
theorem flatten_chunks_length (chunks : List Buffer) (hlen : ∀ c ∈ chunks, c.length = 256) :
    chunks.flatten.length = 256 * chunks.length := by
  induction chunks with
  | nil => rfl
  | cons c rest ih =>
    rw [List.flatten_cons, List.length_append, hlen c (List.mem_cons_self c rest),
      ih (fun c2 h2 => hlen c2 (List.mem_cons_of_mem c h2)), List.length_cons]
    omega

/-- When the first `n` units all decode, they give `n` samples. -/
theorem unitEmissions_samples_length (data : Buffer) (n : Nat)
    (h : ∀ j < n, ∃ s, parseScan (unitAt data j) = Except.ok s) :
    (samplesOf (unitEmissions data n)).length = n := by
  rw [(unitEmissions_samples data n).1]
  have key : ∀ l : List Nat, (∀ j ∈ l, ∃ s, parseScan (unitAt data j) = Except.ok s) →
      (l.filterMap (fun j => (parseScan (unitAt data j)).toOption)).length = l.length := by
    intro l
    induction l with
    | nil => intro _; rfl
    | cons j rest ih =>
      intro hl
      obtain ⟨s, hs⟩ := hl j (List.mem_cons_self j rest)
      have hrest := ih (fun j2 hj2 => hl j2 (List.mem_cons_of_mem j hj2))
      have e2 : (Except.ok s : Except ScanError ScanSample).toOption = some s := rfl
      simp only [List.filterMap_cons, hs, e2, List.length_cons, hrest]
  rw [key _ (fun j hj => h j (List.mem_range.mp hj)), List.length_range]

/-- C21: for `n` chunks of 256 bytes delivered in order to a fresh parser, when
every five-byte unit of the concatenated stream decodes, the samples emitted
over the deliveries are the results of `parseScan` on the first
`256 * n / 5` units of the stream, in order, no error is emitted, and the
final residue is the last `256 * n mod 5` bytes of the stream, of length
`n mod 5`. -/
theorem deliverAll_whole_stream (chunks : List Buffer) (hlen : ∀ c ∈ chunks, c.length = 256)
    (hok : ∀ j < chunks.flatten.length / 5,
      ∃ s, parseScan (unitAt chunks.flatten j) = Except.ok s) :
    chunks.flatten.length = 256 * chunks.length ∧
      deliverAll [] chunks =
        (unitEmissions chunks.flatten (256 * chunks.length / 5),
          chunks.flatten.drop (256 * chunks.length - 256 * chunks.length % 5)) ∧
      samplesOf (deliverAll [] chunks).1 =
        (List.range (256 * chunks.length / 5)).filterMap
          (fun j => (parseScan (unitAt chunks.flatten j)).toOption) ∧
      (samplesOf (deliverAll [] chunks).1).length = 256 * chunks.length / 5 ∧
      (∀ i < 256 * chunks.length / 5,
        ∃ s, parseScan (slice chunks.flatten (5 * i) (5 * i + 5)) = Except.ok s ∧
          (samplesOf (deliverAll [] chunks).1).get? i = some s) ∧
      errorsOf (deliverAll [] chunks).1 = [] ∧
      (deliverAll [] chunks).2.length = 256 * chunks.length % 5 ∧
      (deliverAll [] chunks).2.length = chunks.length % 5 := by
  have hL := flatten_chunks_length chunks hlen
  have hd := deliverAll_chunks chunks [] (by simp) hlen (by simpa using hok)
  simp only [List.nil_append] at hd
  rw [hL] at hd hok
  have hu := unitEmissions_samples chunks.flatten (256 * chunks.length / 5)
  have hrl : (chunks.flatten.drop (256 * chunks.length - 256 * chunks.length % 5)).length =
      256 * chunks.length % 5 := by
    rw [List.length_drop, hL]
    omega
  refine ⟨hL, hd, ?_, ?_, ?_, ?_, ?_, ?_⟩
  · rw [hd]; exact hu.1
  · rw [hd]; exact unitEmissions_samples_length _ _ hok
  · intro i hi
    rw [hd]
    exact unitEmissions_get chunks.flatten (256 * chunks.length / 5) i hi hok
  · rw [hd]; exact hu.2
  · rw [hd]; exact hrl
  · rw [hd]
    simp only
    rw [hrl]
    omega

set_option maxRecDepth 100000 in
/-- C21 on two chunks of 256 bytes `1`: 102 samples and a residue of two bytes. -/
theorem deliverAll_whole_stream_witness :
    (samplesOf (deliverAll [] [List.replicate 256 1, List.replicate 256 1]).1).length =
        256 * [List.replicate 256 (1 : Byte), List.replicate 256 1].length / 5 ∧
      (deliverAll [] [List.replicate 256 1, List.replicate 256 1]).2.length =
        [List.replicate 256 (1 : Byte), List.replicate 256 1].length % 5 :=
  have h := deliverAll_whole_stream [List.replicate 256 1, List.replicate 256 1]
    (fun c hc => by
      have h2 : c = List.replicate 256 1 := by simpa using hc
      rw [h2]
      exact List.length_replicate 256 1)
    (fun j hj => ⟨⟨['1'], 0, 2, 257 / 4⟩, by
      have hs : [List.replicate 256 (1 : Byte), List.replicate 256 1].flatten =
          List.replicate 512 1 := by decide!
      rw [hs] at hj ⊢
      rw [List.length_replicate] at hj
      have hu : unitAt (List.replicate 512 (1 : Byte)) j = [1, 1, 1, 1, 1] := by
        simp only [unitAt, slice, List.take_replicate, List.drop_replicate]
        have h5 : min (5 * j + 5) 512 - 5 * j = 5 := by omega
        rw [h5]
        rfl
      rw [hu]
      decide!⟩)
  ⟨h.2.2.2.1, h.2.2.2.2.2.2.2⟩

end RPLidar
